import Mathlib

/-!
Verification development for the clar2wasm compiler (Clarity → WebAssembly).

This file shallowly embeds the parts of the source relevant to the frozen
claims:

* `src/clar2wasm/src/wasm_utils.rs` — the value-marshalling layer
  (`write_to_wasm`, `read_from_wasm`, `read_from_wasm_indirect`,
  `read_indirect_offset_and_length`), over a byte-addressed linear memory.
* `src/clar2wasm/src/words/equal.rs` — the runtime meaning of the code emitted
  for `is-eq` (`wasm_equal` and its helpers).
* `src/clar2wasm/src/words/arithmetic.rs` — `simple_typed_multi_value` and the
  stack-machine meaning of the emitted call chain.
* `src/clar2wasm/src/words/conditionals.rs` — the runtime meaning of the code
  emitted for `filter`, `and`/`or` (`traverse_short_circuiting_list`) and
  `unwrap!`.
* `src/clar2wasm/src/error_mapping.rs` — `from_runtime_error_code` and
  `short_return_value`.
* `src/clar2wasm/src/words/stx.rs` — the argument-count check of
  `stx-transfer?`.
* `src/clar2wasm/src/words/data_vars.rs` and
  `src/clar2wasm/src/words/constants.rs` — name checks in `define-data-var`
  and `define-constant`.

Machine integers are modelled as `Nat`/`Int` with explicit `% 2^w` where the
source performs a narrowing cast.  Fallible Rust code returning
`Result<_, Error>` is modelled with `Except WErr _`; `todo!()`/panics are
modelled as dedicated error values.  Recursive functions over the nested
`Ty`/`Value` inductives take an explicit fuel argument (first parameter);
every theorem is conditioned on the call succeeding, which in particular
means the fuel sufficed, so no fuel side conditions appear.
-/

set_option maxRecDepth 16000

namespace Clar2Wasm

/-! ## Little-endian byte encodings

The source uses `u64::to_le_bytes`/`from_le_bytes` (for the two halves of
128-bit integers) and `i32::to_le_bytes`/`from_le_bytes` (for lengths,
offsets, and variant indicators). Bytes are `Nat`s; encoders only produce
values `< 256`. -/

/-- Little-endian byte encoding of `n`, `w` bytes wide (modelling
`to_le_bytes` of a `w`-byte machine integer: the value is taken mod `2^(8w)`). -/
def leBytes : Nat → Nat → List Nat
  | 0, _ => []
  | w + 1, n => n % 256 :: leBytes w (n / 256)

/-- Little-endian byte decoding (`from_le_bytes` for unsigned integers). -/
def fromLe : List Nat → Nat
  | [] => 0
  | b :: bs => b % 256 + 256 * fromLe bs

/-- Decode 4 little-endian bytes as an `i32` (two's complement), as
`i32::from_le_bytes` does for indirection offsets, lengths, and variant
indicators. -/
def fromLeI32 (bs : List Nat) : Int :=
  let u := fromLe bs
  if u < 2 ^ 31 then (u : Int) else (u : Int) - 2 ^ 32

/-! ## Linear memory

Wasm linear memory, byte-addressed. The embedding uses an unbounded memory
(`wasmtime::Memory` reads/writes fail past the current size; none of the
claims under study depends on hitting the memory bound, and the marshalling
theorems quantify over offsets). -/

/-- Linear memory: a total map from byte address to byte. -/
def Mem : Type := Nat → Nat

/-- Write the byte list `bs` at offset `off` (models `memory.write`). -/
def storeBytes (m : Mem) (off : Nat) (bs : List Nat) : Mem :=
  fun a => if off ≤ a ∧ a < off + bs.length then bs.getD (a - off) 0 else m a

/-- Read `n` bytes at offset `off` (models `memory.read` into an `n`-byte buffer). -/
def loadBytes (m : Mem) (off n : Nat) : List Nat :=
  (List.range n).map (fun i => m (off + i))

/-- Two memories agree on the `n`-byte region at `off`. -/
def agreeOn (m1 m2 : Mem) (off n : Nat) : Prop :=
  ∀ a, off ≤ a → a < off + n → m1 a = m2 a

/-! ## Clarity types and values

`Ty` models `clarity::vm::types::TypeSignature` restricted to value types
(the `CallableType`/`TraitReferenceType` variants marshal identically to
`PrincipalType` and are folded into it; `ListUnionType` is not a value type
and is omitted — `write_to_wasm` declares it `unreachable!`).
`Value` models `clarity::vm::Value`; as in the source (`ListData`), a list
value carries its element type signature. -/

inductive Ty where
  | intT
  | uintT
  | boolT
  | buffT (cap : Nat)
  | asciiT (cap : Nat)
  | utf8T (cap : Nat)
  | principalT
  | listT (elem : Ty) (cap : Nat)
  | tupleT (fields : List (String × Ty))
  | optionalT (inner : Ty)
  | responseT (okTy : Ty) (errTy : Ty)
  | noneTy

inductive Value where
  | intV (i : Int)
  | uintV (u : Nat)
  | boolV (b : Bool)
  | buffV (data : List Nat)
  | asciiV (data : List Nat)
  | utf8V (scalars : List Nat)
  | principalV (version : Nat) (hash : List Nat) (name : List Nat)
  | listV (ety : Ty) (vs : List Value)
  | tupV (fs : List (String × Value))
  | noneV
  | someV (v : Value)
  | okV (v : Value)
  | errV (v : Value)

/-- Whether a type is represented as an `(offset, length)` indirection
(models `clarity::vm::clarity_wasm::is_in_memory_type`, which is declared in
a dependency crate; the spec §3 lists Buffer, StringAscii, StringUtf8,
Principal and List as the in-memory types). -/
def is_in_memory_type : Ty → Bool
  | .buffT _ | .asciiT _ | .utf8T _ | .principalT | .listT _ _ => true
  | _ => false

/-- Byte size of the in-memory footprint of a type (models
`clarity::vm::clarity_wasm::get_type_size`, declared in a dependency crate;
the spec §3 fixes the slot table: `i64, i64` for integers (16 bytes), one
`i32` for Bool and NoType (4 bytes), an `(offset, length)` pair for in-memory
types (8 bytes), `4 + size(T)` for optionals, `4 + size(ok) + size(err)` for
responses, and the field-size sum for tuples).  Fuel-based recursion: `none`
means the fuel ran out. -/
def get_type_size : Nat → Ty → Option Nat
  | 0, _ => none
  | _ + 1, .intT => some 16
  | _ + 1, .uintT => some 16
  | _ + 1, .boolT => some 4
  | _ + 1, .buffT _ => some 8
  | _ + 1, .asciiT _ => some 8
  | _ + 1, .utf8T _ => some 8
  | _ + 1, .principalT => some 8
  | _ + 1, .listT _ _ => some 8
  | fuel + 1, .tupleT fields =>
      fields.foldl
        (fun acc p => do
          let s ← acc
          let fs ← get_type_size fuel p.2
          pure (s + fs))
        (some 0)
  | fuel + 1, .optionalT inner => do
      let s ← get_type_size fuel inner
      pure (4 + s)
  | fuel + 1, .responseT okTy errTy => do
      let so ← get_type_size fuel okTy
      let se ← get_type_size fuel errTy
      pure (4 + so + se)
  | _ + 1, .noneTy => some 4

/-! ## Errors

Models `clarity::vm::errors::Error` restricted to the variants produced by
the marshalling layer. `panicTodo` stands for the `todo!()` panics in
`write_to_wasm`/`read_from_wasm` (unimplemented types); `fuelOut` is an
artifact of the embedding (never reached when the fuel covers the type
nesting depth — all theorems are conditioned on success). -/

inductive WErr where
  | valueTypeMismatch
  | invalidIndicator (tag : Int)
  | unableToReadIdentifier
  | runtimeError
  | panicTodo
  | panicUnreachable
  | fuelOut
deriving DecidableEq, Repr

/-! ## write_to_wasm

Models `write_to_wasm` (src/clar2wasm/src/wasm_utils.rs:76-415). The Rust
function threads a `wasmtime` store/memory pair; here the memory is passed
and returned explicitly. Returns the new memory and the number of bytes
written at `offset` and at `in_mem_offset`.

The `value_as_*` accessors (wasm_utils.rs:919-987) are inlined as the match
on the value constructor, with `ValueTypeMismatch` on mismatch.

Note on the two 128-bit integer cases: the source splits `i` into
`low = (i & 0xffff_ffff_ffff_ffff) as u64` and `high = (i >> 64) as u64` and
writes each half little-endian; for an `i128` this equals the little-endian
bytes of the 128-bit two's-complement pattern `i mod 2^128`, written 16 bytes
at `offset`.

In the list case the source computes the element spacing of the payload
cursor from the *value's own* type signature
(`list_data.type_signature.get_list_item_type()`, line 191) while writing
elements at the *declared* element type (`list.get_list_item_type()`, line
183); both are modelled as written. -/

def write_to_wasm :
    Nat → Mem → Ty → Nat → Nat → Value → Bool → Except WErr (Mem × Nat × Nat)
  | 0, _, _, _, _, _, _ => .error .fuelOut
  | _ + 1, m, .intT, offset, _, v, _ =>
      match v with
      | .intV i =>
          let u := (i % (2 ^ 128 : Int)).toNat
          let m1 := storeBytes m offset (leBytes 8 (u % 2 ^ 64))
          let m2 := storeBytes m1 (offset + 8) (leBytes 8 (u / 2 ^ 64))
          .ok (m2, 16, 0)
      | _ => .error .valueTypeMismatch
  | _ + 1, m, .uintT, offset, _, v, _ =>
      match v with
      | .uintV u =>
          let m1 := storeBytes m offset (leBytes 8 (u % 2 ^ 64))
          let m2 := storeBytes m1 (offset + 8) (leBytes 8 (u / 2 ^ 64))
          .ok (m2, 16, 0)
      | _ => .error .valueTypeMismatch
  | _ + 1, m, .buffT _, offset, in_mem_offset, v, include_repr =>
      match v with
      | .buffV data =>
          let m1 := storeBytes m in_mem_offset data
          let in_mem_written := data.length
          if include_repr then
            let m2 := storeBytes m1 offset (leBytes 4 (in_mem_offset % 2 ^ 32))
            let m3 := storeBytes m2 (offset + 4) (leBytes 4 (in_mem_written % 2 ^ 32))
            .ok (m3, 8, in_mem_written)
          else
            .ok (m1, 0, in_mem_written)
      | _ => .error .valueTypeMismatch
  | _ + 1, m, .asciiT _, offset, in_mem_offset, v, include_repr =>
      match v with
      | .asciiV data =>
          let m1 := storeBytes m in_mem_offset data
          let in_mem_written := data.length
          if include_repr then
            let m2 := storeBytes m1 offset (leBytes 4 (in_mem_offset % 2 ^ 32))
            let m3 := storeBytes m2 (offset + 4) (leBytes 4 (in_mem_written % 2 ^ 32))
            .ok (m3, 8, in_mem_written)
          else
            .ok (m1, 0, in_mem_written)
      | _ => .error .valueTypeMismatch
  | fuel + 1, m, .listT elemTy _, offset, in_mem_offset, v, include_repr =>
      match v with
      | .listV valEty vs => do
          let elemSizeOwn ← (get_type_size fuel valEty).elim (.error .fuelOut) .ok
          let val_offset := in_mem_offset
          let val_in_mem_offset := in_mem_offset + vs.length * elemSizeOwn
          let (m1, val_written, val_in_mem_written) ←
            vs.foldlM
              (fun (acc : Mem × Nat × Nat) elem => do
                let (mAcc, w, imw) := acc
                let (mNext, nw, nimw) ←
                  write_to_wasm fuel mAcc elemTy (val_offset + w)
                    (val_in_mem_offset + imw) elem true
                pure (mNext, w + nw, imw + nimw))
              (m, 0, 0)
          if include_repr then
            let m2 := storeBytes m1 offset (leBytes 4 (in_mem_offset % 2 ^ 32))
            let m3 := storeBytes m2 (offset + 4) (leBytes 4 (val_written % 2 ^ 32))
            pure (m3, 8, val_written + val_in_mem_written)
          else
            pure (m1, 0, val_written + val_in_mem_written)
      | _ => .error .valueTypeMismatch
  | _ + 1, _, .utf8T _, _, _, _, _ =>
      -- write_to_wasm has no arm for UTF-8 strings: the catch-all
      -- `TypeSignature::SequenceType(_) => todo!(...)` (line 225) panics.
      .error .panicTodo
  | fuel + 1, m, .responseT okTy errTy, offset, in_mem_offset, v, _ =>
      match v with
      | .okV inner => do
          let m1 := storeBytes m offset (leBytes 4 1)
          let (m2, w, imw) ←
            write_to_wasm fuel m1 okTy (offset + 4) in_mem_offset inner true
          let skip ← (get_type_size fuel errTy).elim (.error .fuelOut) .ok
          pure (m2, 4 + w + skip, imw)
      | .errV inner => do
          let m1 := storeBytes m offset (leBytes 4 0)
          let skip ← (get_type_size fuel okTy).elim (.error .fuelOut) .ok
          let (m2, w, imw) ←
            write_to_wasm fuel m1 errTy (offset + 4 + skip) in_mem_offset inner true
          pure (m2, 4 + skip + w, imw)
      | _ => .error .valueTypeMismatch
  | _ + 1, m, .boolT, offset, _, v, _ =>
      match v with
      | .boolV b =>
          .ok (storeBytes m offset (leBytes 4 (if b then 1 else 0)), 4, 0)
      | _ => .error .valueTypeMismatch
  | _ + 1, m, .noneTy, offset, _, _, _ =>
      .ok (storeBytes m offset [0, 0, 0, 0], 4, 0)
  | fuel + 1, m, .optionalT innerTy, offset, in_mem_offset, v, _ =>
      match v with
      | .someV inner => do
          let m1 := storeBytes m offset (leBytes 4 1)
          let (m2, w, imw) ←
            write_to_wasm fuel m1 innerTy (offset + 4) in_mem_offset inner true
          pure (m2, 4 + w, imw)
      | .noneV => do
          let m1 := storeBytes m offset (leBytes 4 0)
          let skip ← (get_type_size fuel innerTy).elim (.error .fuelOut) .ok
          pure (m1, 4 + skip, 0)
      | _ => .error .valueTypeMismatch
  | _ + 1, m, .principalT, offset, in_mem_offset, v, include_repr =>
      match v with
      | .principalV version hash name =>
          let m1 := storeBytes m in_mem_offset [version]
          let m2 := storeBytes m1 (in_mem_offset + 1) hash
          let afterHash := 1 + hash.length
          let payload :=
            if name.isEmpty then
              (storeBytes m2 (in_mem_offset + afterHash) [0], afterHash + 1)
            else
              let m3 := storeBytes m2 (in_mem_offset + afterHash) [name.length % 256]
              (storeBytes m3 (in_mem_offset + afterHash + 1) name,
               afterHash + 1 + name.length)
          let m4 := payload.1
          let in_mem_written := payload.2
          if include_repr then
            let m5 := storeBytes m4 offset (leBytes 4 (in_mem_offset % 2 ^ 32))
            let m6 := storeBytes m5 (offset + 4) (leBytes 4 (in_mem_written % 2 ^ 32))
            .ok (m6, 8, in_mem_written)
          else
            .ok (m4, 0, in_mem_written)
      | _ => .error .valueTypeMismatch
  | fuel + 1, m, .tupleT fields, offset, in_mem_offset, v, _ =>
      match v with
      | .tupV fs =>
          fs.foldlM
            (fun (acc : Mem × Nat × Nat) kv => do
              let (mAcc, w, imw) := acc
              let valTy ← (fields.lookup kv.1).elim (.error .valueTypeMismatch) .ok
              let (mNext, nw, nimw) ←
                write_to_wasm fuel mAcc valTy (offset + w) (in_mem_offset + imw)
                  kv.2 true
              pure (mNext, w + nw, imw + nimw))
            (m, 0, 0)
      | _ => .error .valueTypeMismatch

/-! ## read_from_wasm / read_from_wasm_indirect

Models `read_from_wasm` (wasm_utils.rs:653-864),
`read_from_wasm_indirect` (870-886) and
`read_indirect_offset_and_length` (888-903).

The two source functions are mutually recursive: every recursive call inside
`read_from_wasm` goes through `read_from_wasm_indirect`, whose body is
"compute `get_type_size`, follow the eight-byte indirection for in-memory
types, then call `read_from_wasm`".  The embedding factors the shared match
into `read_body`, parameterized by the recursive entry point, and ties the
knot with fuel in `read_from_wasm_indirect`; `read_from_wasm` is the direct
entry with a caller-supplied `(offset, length)`.

Value-constructor validation performed by the `clarity` dependency crate is
modelled as follows (these constructors are not under src/):
`Value::string_ascii_from_bytes` accepts ASCII bytes (modelled from the spec:
StringAscii holds ASCII code units, so each byte must be `< 128`);
`Value::string_utf8_from_unicode_scalars` reads 4-byte Unicode scalar values
(spec §3); `ContractName::try_from` accepts 1..=128 ASCII bytes (spec §3:
"optional contract name (1..=128 ASCII bytes)");
`Value::cons_list_unsanitized` rebuilds the list value — for elements read
back at the declared element type its element-type signature is that declared
type; `TupleData::from_data` pairs field names with values.  Length-cap
checks of `Value::buff_from` are omitted: read lengths come from 31-bit
cells.  The `debug_assert!` statements in the source are no-ops in release
builds and are not modelled. -/

/-- Indicator byte for `version`/`hash`/`name` validity of a read-back ASCII
byte (model of the `clarity` crate's ASCII check). -/
def asciiByteOk (b : Nat) : Bool := b < 128

def string_ascii_from_bytes (bs : List Nat) : Except WErr Value :=
  if bs.all asciiByteOk then .ok (.asciiV bs) else .error .valueTypeMismatch

/-- Decode a 4-byte group as a Unicode scalar value; groups are big-endian in
the in-memory form of UTF-8 strings. -/
def scalarOfGroup (bs : List Nat) : Nat :=
  bs.foldl (fun acc b => acc * 256 + b % 256) 0

def isValidScalar (n : Nat) : Bool :=
  n < 0x110000 && !(0xD800 ≤ n && n < 0xE000)

def string_utf8_from_unicode_scalars (bs : List Nat) : Except WErr Value :=
  if bs.length % 4 = 0 then
    let groups := (List.range (bs.length / 4)).map
      (fun k => scalarOfGroup ((bs.drop (4 * k)).take 4))
    if groups.all isValidScalar then .ok (.utf8V groups)
    else .error .valueTypeMismatch
  else .error .valueTypeMismatch

def contract_name_try_from (bs : List Nat) : Except WErr (List Nat) :=
  if 1 ≤ bs.length ∧ bs.length ≤ 128 ∧ bs.all asciiByteOk then .ok bs
  else .error .unableToReadIdentifier

def read_indirect_offset_and_length (m : Mem) (offset : Nat) :
    Except WErr (Int × Int) :=
  .ok (fromLeI32 (loadBytes m offset 4), fromLeI32 (loadBytes m (offset + 4) 4))

/-- The match of `read_from_wasm` on the type, with the recursive entry
(`read_from_wasm_indirect` in the source) abstracted as `recInd`; `fuel` is
only threaded into `get_type_size`.  A Rust `offset as usize` of a negative
`i32` would address past the memory end and fail the read; this is modelled
by the sign checks before `Int.toNat`. -/
def read_body (fuel : Nat) (recInd : Mem → Ty → Nat → Except WErr Value)
    (m : Mem) (ty : Ty) (offset length : Nat) : Except WErr Value :=
  match ty with
  | .uintT =>
      let low := fromLe (loadBytes m offset 8)
      let high := fromLe (loadBytes m (offset + 8) 8)
      .ok (.uintV (high * 2 ^ 64 + low))
  | .intT =>
      let low := fromLe (loadBytes m offset 8)
      let high := fromLe (loadBytes m (offset + 8) 8)
      let u : Nat := high * 2 ^ 64 + low
      .ok (.intV (if u < 2 ^ 127 then (u : Int) else (u : Int) - 2 ^ 128))
  | .asciiT _ => string_ascii_from_bytes (loadBytes m offset length)
  | .utf8T _ => string_utf8_from_unicode_scalars (loadBytes m offset length)
  | .principalT => do
      let version := m offset
      let hash := loadBytes m (offset + 1) 20
      let contract_length := m (offset + 21)
      if contract_length = 0 then
        .ok (.principalV (version % 256) hash [])
      else
        let name ← contract_name_try_from (loadBytes m (offset + 22) contract_length)
        .ok (.principalV (version % 256) hash name)
  | .buffT _ => .ok (.buffV (loadBytes m offset length))
  | .listT elemTy _ => do
      let elem_length ← (get_type_size fuel elemTy).elim (.error .fuelOut) .ok
      -- the source loop runs `current_offset` from `offset` while
      -- `current_offset < offset + length`, stepping by `elem_length`:
      -- `⌈length / elem_length⌉` iterations (`elem_length` is positive for
      -- every type an element can have)
      let count := (length + elem_length - 1) / elem_length
      let elems ← (List.range count).mapM
        (fun k => recInd m elemTy (offset + k * elem_length))
      .ok (.listV elemTy elems)
  | .boolT =>
      .ok (.boolV (fromLe (loadBytes m offset 4) ≠ 0))
  | .tupleT fields => do
      let data ← fields.foldlM
        (fun (acc : List (String × Value) × Nat) kv => do
          let (ps, current) := acc
          let field_length ← (get_type_size fuel kv.2).elim (.error .fuelOut) .ok
          let fv ← recInd m kv.2 current
          pure (ps ++ [(kv.1, fv)], current + field_length))
        ([], offset)
      .ok (.tupV data.1)
  | .responseT okTy errTy => do
      let indicator := fromLeI32 (loadBytes m offset 4)
      if indicator = 0 then do
        let skip ← (get_type_size fuel okTy).elim (.error .fuelOut) .ok
        let err_value ← recInd m errTy (offset + 4 + skip)
        .ok (.errV err_value)
      else if indicator = 1 then do
        let ok_value ← recInd m okTy (offset + 4)
        .ok (.okV ok_value)
      else
        .error (.invalidIndicator indicator)
  | .optionalT innerTy => do
      let indicator := fromLeI32 (loadBytes m offset 4)
      if indicator = 0 then
        .ok .noneV
      else if indicator = 1 then do
        let value ← recInd m innerTy (offset + 4)
        .ok (.someV value)
      else
        .error (.invalidIndicator indicator)
  | .noneTy => .error .panicTodo

def read_from_wasm_indirect :
    Nat → Mem → Ty → Nat → Except WErr Value
  | 0, _, _, _ => .error .fuelOut
  | fuel + 1, m, ty, offset => do
      let length ← (get_type_size (fuel + 1) ty).elim (.error .fuelOut) .ok
      if is_in_memory_type ty then do
        let (o2, l2) ← read_indirect_offset_and_length m offset
        if 0 ≤ o2 ∧ 0 ≤ l2 then
          read_body fuel (read_from_wasm_indirect fuel) m ty o2.toNat l2.toNat
        else .error .runtimeError
      else
        read_body fuel (read_from_wasm_indirect fuel) m ty offset length

def read_from_wasm (fuel : Nat) (m : Mem) (ty : Ty) (offset length : Nat) :
    Except WErr Value :=
  match fuel with
  | 0 => .error .fuelOut
  | fuel + 1 => read_body fuel (read_from_wasm_indirect fuel) m ty offset length

/-! ## Typing

`hasType fuel v ty` is the well-typedness predicate used by the marshalling
theorems: `v` is a concrete value of type `ty` (`NoType` has no values), the
embedded type signature of a list value is its declared element type, tuple
value fields align with the tuple type's (distinct) field names, and all
numeric/length invariants of the Clarity value constructors hold.  The fuel
bounds the nesting depth, like for every other recursion over the nested
`Ty`/`Value` types. -/

/-- Fuel-bounded structural equality of types (`TypeSignature` derives
`PartialEq` in the source). `true` only for equal types. -/
def tyEqB : Nat → Ty → Ty → Bool
  | 0, _, _ => false
  | _ + 1, .intT, .intT => true
  | _ + 1, .uintT, .uintT => true
  | _ + 1, .boolT, .boolT => true
  | _ + 1, .buffT c1, .buffT c2 => c1 == c2
  | _ + 1, .asciiT c1, .asciiT c2 => c1 == c2
  | _ + 1, .utf8T c1, .utf8T c2 => c1 == c2
  | _ + 1, .principalT, .principalT => true
  | fuel + 1, .listT e1 c1, .listT e2 c2 => tyEqB fuel e1 e2 && c1 == c2
  | fuel + 1, .tupleT f1, .tupleT f2 =>
      f1.length == f2.length &&
      (f1.zip f2).all (fun p => p.1.1 == p.2.1 && tyEqB fuel p.1.2 p.2.2)
  | fuel + 1, .optionalT t1, .optionalT t2 => tyEqB fuel t1 t2
  | fuel + 1, .responseT o1 e1, .responseT o2 e2 => tyEqB fuel o1 o2 && tyEqB fuel e1 e2
  | _ + 1, .noneTy, .noneTy => true
  | _ + 1, _, _ => false

def distinctKeys : List String → Bool
  | [] => true
  | k :: r => !(r.any (fun k2 => k2 == k)) && distinctKeys r

def hasType : Nat → Value → Ty → Bool
  | 0, _, _ => false
  | _ + 1, .intV i, .intT => decide (-(2 ^ 127) ≤ i) && decide (i < 2 ^ 127)
  | _ + 1, .uintV u, .uintT => decide (u < 2 ^ 128)
  | _ + 1, .boolV _, .boolT => true
  | _ + 1, .buffV d, .buffT cap => d.length ≤ cap && d.all (· < 256)
  | _ + 1, .asciiV d, .asciiT cap => d.length ≤ cap && d.all asciiByteOk
  | _ + 1, .utf8V s, .utf8T cap => s.length ≤ cap && s.all isValidScalar
  | _ + 1, .principalV version hash name, .principalT =>
      version < 256 && hash.length == 20 && hash.all (· < 256) &&
      (name.isEmpty ||
        (decide (1 ≤ name.length) && decide (name.length ≤ 128) && name.all asciiByteOk))
  | fuel + 1, .listV ety vs, .listT elemTy cap =>
      tyEqB (fuel + 1) ety elemTy && vs.length ≤ cap &&
      (get_type_size fuel elemTy).isSome &&
      vs.all (fun v => hasType fuel v elemTy)
  | fuel + 1, .tupV fs, .tupleT fields =>
      fs.length == fields.length && !fields.isEmpty &&
      distinctKeys (fields.map Prod.fst) &&
      (fs.zip fields).all (fun p => p.1.1 == p.2.1 && hasType fuel p.1.2 p.2.2)
  | fuel + 1, .noneV, .optionalT inner => (get_type_size fuel inner).isSome
  | fuel + 1, .someV v, .optionalT inner => hasType fuel v inner
  | fuel + 1, .okV v, .responseT okTy errTy =>
      hasType fuel v okTy && (get_type_size fuel errTy).isSome
  | fuel + 1, .errV v, .responseT okTy errTy =>
      (get_type_size fuel okTy).isSome && hasType fuel v errTy
  | _ + 1, _, _ => false

/-- Types free of UTF-8 string components (the `write_to_wasm` side of the
marshalling panics with `todo!()` on UTF-8 strings, wasm_utils.rs:225). -/
def utf8Free : Nat → Ty → Bool
  | 0, _ => false
  | _ + 1, .utf8T _ => false
  | fuel + 1, .listT e _ => utf8Free fuel e
  | fuel + 1, .tupleT fields => fields.all (fun p => utf8Free fuel p.2)
  | fuel + 1, .optionalT t => utf8Free fuel t
  | fuel + 1, .responseT o e => utf8Free fuel o && utf8Free fuel e
  | _ + 1, _ => true

/-- The number of bytes `write_to_wasm` places at the in-memory cursor for a
value (its second returned count, with `include_repr = true`). -/
def memSize : Nat → Value → Option Nat
  | 0, _ => none
  | _ + 1, .intV _ => some 0
  | _ + 1, .uintV _ => some 0
  | _ + 1, .boolV _ => some 0
  | _ + 1, .buffV d => some d.length
  | _ + 1, .asciiV d => some d.length
  | _ + 1, .utf8V _ => none
  | _ + 1, .principalV _ hash name => some (1 + hash.length + 1 + name.length)
  | fuel + 1, .listV ety vs => do
      let esz ← get_type_size fuel ety
      let inner ← vs.mapM (memSize fuel)
      some (vs.length * esz + inner.sum)
  | fuel + 1, .tupV fs => do
      let inner ← fs.mapM (fun kv => memSize fuel kv.2)
      some inner.sum
  | _ + 1, .noneV => some 0
  | fuel + 1, .someV v => memSize fuel v
  | fuel + 1, .okV v => memSize fuel v
  | fuel + 1, .errV v => memSize fuel v

/-- The all-zero memory (used by concrete witnesses). -/
def mem0 : Mem := fun _ => 0

/-! ## Code generation errors

Models `crate::wasm_generator::GeneratorError` (declared in a module of this
repository that is not part of the snapshot; its variants are visible at the
use sites in src/: `TypeError`, `InternalError`, `NotImplemented`). -/

inductive GeneratorError where
  | typeError (msg : String)
  | internalError (msg : String)
  | notImplemented
deriving DecidableEq, Repr

/-! ## Arithmetic words (claim C3)

Models `simple_typed_multi_value` (src/clar2wasm/src/words/arithmetic.rs:30-55).
The builder is modelled as the list of instructions the function appends: it
emits one `call` to the binary stdlib helper per iteration of
`for _ in 1..arg_types.len()`, i.e. `n - 1` calls. -/

inductive Instr where
  | callFn (name : String)
deriving DecidableEq, Repr

def simple_typed_multi_value (arg_types : List Ty) (return_type : Ty)
    (name : String) : Except GeneratorError (List Instr) := do
  let type_suffix ←
    match return_type with
    | .intT => pure "int"
    | .uintT => pure "uint"
    | _ => .error (.typeError "invalid type for arithmetic")
  let func := "stdlib." ++ name ++ "-" ++ type_suffix
  pure (List.replicate (arg_types.length - 1) (.callFn func))

/-- Run the emitted call chain on the Wasm evaluation stack (head = top of
stack).  After the `n` argument expressions are evaluated left to right, the
stack holds `aₙ, …, a₁` (top first).  A call to a binary helper pops the
second operand `y` (top) and the first operand `x`, and pushes `op x y`. -/
def execInstrs (op : Int → Int → Int) : List Instr → List Int → Option (List Int)
  | [], st => some st
  | .callFn _ :: rest, y :: x :: st => execInstrs op rest (op x y :: st)
  | _ :: _, _ => none

/-! ## Short-circuiting and / or (claim C6)

Models the runtime meaning of the code emitted by
`traverse_short_circuiting_list` (src/clar2wasm/src/words/conditionals.rs:273-324).
Branch expressions are state transformers `S → Bool × S` (their side effects
are the state change).  The emitted chain starts from the constant
`i32_const(if invert { 0 } else { 1 })` and wraps each branch in an `IfElse`
whose other arm is the effect-free `noop` block pushing
`i32_const(if invert { 1 } else { 0 })`:

* `and` (`invert = false`): a true accumulator selects the branch (evaluating
  it, with its side effects); a false accumulator selects `noop`, which just
  pushes 0.
* `or` (`invert = true`): a false accumulator selects the branch; a true
  accumulator selects `noop`, which pushes 1. -/

def traverse_short_circuiting_list {S : Type} (invert : Bool)
    (args : List (S → Bool × S)) (s : S) : Bool × S :=
  args.foldl
    (fun acc branch =>
      if invert then
        if acc.1 then (true, acc.2) else branch acc.2
      else
        if acc.1 then branch acc.2 else (false, acc.2))
    (if invert then false else true, s)

def wasmAnd {S : Type} (args : List (S → Bool × S)) (s : S) : Bool × S :=
  traverse_short_circuiting_list false args s

def wasmOr {S : Type} (args : List (S → Bool × S)) (s : S) : Bool × S :=
  traverse_short_circuiting_list true args s

/-! ## unwrap! (claim C7)

Models the runtime meaning of the code emitted by `Unwrap::traverse`
(src/clar2wasm/src/words/conditionals.rs:365-432): the input's payload is
saved to locals; the `IfElse` on the discriminant either pushes the payload
back (success) or evaluates the fallback expression and leaves the function
through `generator.return_early`. -/

/-- Outcome of the unwrap block inside the enclosing function's body. -/
inductive ExecOutcome where
  | proceed (payload : Value)
  | earlyReturn (value : Value)
  | trap (e : WErr)

/-- Modelled from the spec: `WasmGenerator::return_early` is declared in a
module of this repository that is not part of the snapshot.  Spec §4.6.2 and
§9: short-return "writes the proxy value into the function's return-slot
locals and jumps to the function epilogue"; it is "an explicit early-exit
mechanism, not a Wasm trap". -/
def return_early (v : Value) : ExecOutcome := .earlyReturn v

/-- The value-level meaning of the emitted unwrap block.  For a response
input the err payload is dropped (`drop_value`, conditionals.rs:391) before
the ok payload is saved; the discriminant selects the unwrap branch (restore
payload) or the throw branch (evaluate fallback, `return_early`).  Other
input shapes are rejected at compile time (`GeneratorError::TypeError`) and
cannot reach the emitted code; they are mapped to a trap outcome here. -/
def unwrapRun (input : Value) (fallback : Value) : ExecOutcome :=
  match input with
  | .someV v => .proceed v
  | .noneV => return_early fallback
  | .okV v => .proceed v
  | .errV _ => return_early fallback
  | _ => .trap .valueTypeMismatch

/-- Result of the enclosing function when its body is the unwrap block
followed by a continuation `rest` (`.ok` = the function returns normally; a
short-return produces the fallback value as the function's return value, not
a trap). -/
def unwrapInFunction (input : Value) (fallback : Value) (rest : Value → Value) :
    Except WErr Value :=
  match unwrapRun input fallback with
  | .proceed v => .ok (rest v)
  | .earlyReturn v => .ok v
  | .trap e => .error e

/-! ## filter (claim C5)

Models the runtime meaning of the loop emitted by `Filter::traverse`
(src/clar2wasm/src/words/conditionals.rs:132-271).  The emitted Wasm is

    loop {
      read element at input_offset; call discriminator;
      if result { copy element to output; output_len += elem_size }
      input_offset += elem_size;
      br_if (input_offset < input_end)
    }

with `input_end = input_offset + input_len` — a do-while: the body runs at
least once, even when `input_len = 0`.  The model reads elements through
`readElem` (byte offset relative to the list start; `readElem (k * esz)` is
the `k`-th element, and for an empty region it is whatever garbage sits at
the input offset).  It returns the copied elements (in copy order) and the
list of elements the discriminator was invoked on (in invocation order). -/

/-- Number of iterations of the emitted do-while loop: the body runs once,
then repeats while the incremented offset is `< len` — `⌈len / esz⌉`
iterations, but at least one. -/
def doWhileCount (esz len : Nat) : Nat := max 1 ((len + esz - 1) / esz)

def filterRun {α : Type} (p : α → Bool) (readElem : Nat → α) (esz len : Nat) :
    List α × List α :=
  (List.range (doWhileCount esz len)).foldl
    (fun (acc : List α × List α) k =>
      let e := readElem (k * esz)
      (if p e then acc.1 ++ [e] else acc.1, acc.2 ++ [e]))
    ([], [])

/-- Reading the `k`-th element of a stored element list, with `garbage` at
out-of-range offsets. -/
def readElemOf {α : Type} (elems : List α) (esz : Nat) (garbage : α) (off : Nat) : α :=
  if esz = 0 then garbage else elems.getD (off / esz) garbage

/-! ## Error mapping (claims C4 and C8)

Models `src/clar2wasm/src/error_mapping.rs`: the `ErrorMap` code enumeration,
`from_runtime_error_code` and `short_return_value`.  The wasmtime
`Instance`/`Store` pair is modelled as a record of the globals the resolver
reads plus the linear memory.  The source's `panic!`-style unwraps inside the
resolver are modelled by the `panicked` error value.

`signature_from_string` is imported by error_mapping.rs from
`crate::wasm_utils` but is absent from the snapshot of that file; it is
abstracted as a parameter `sigDecode` (bytes of the serialized type → type).
`read_identifier_from_wasm` (wasm_utils.rs:990-998) decodes the bytes as a
string; `stringOfBytes` models it (total on byte lists; the UTF-8 validity
failure path is not needed by the claims). -/

def stringOfBytes (bs : List Nat) : String :=
  String.mk (bs.map Char.ofNat)

inductive RuntimeErrorType where
  | arithmeticOverflow
  | arithmeticUnderflow
  | divisionByZero
  | arithmeticMsg (msg : String)
  | badTypeConstruction
  | unwrapFailure
deriving DecidableEq, Repr

inductive ShortReturnType where
  | assertionFailed (v : Value)
  | expectedValue (v : Value)

inductive CheckErrorsE where
  | nameAlreadyUsed (name : String)
  | incorrectArgumentCount (expected got : Nat)
deriving DecidableEq, Repr

/-- Models `clarity::vm::errors::Error` restricted to the variants produced
by `from_runtime_error_code`; `wasmRuntime` stands for
`Error::Wasm(WasmError::Runtime(e))` (the underlying trap surfaced) and
`panicked` for the resolver's own panics (`unwrap`/`unwrap_or_else` with a
panic). -/
inductive VmError where
  | runtime (e : RuntimeErrorType)
  | shortReturn (s : ShortReturnType)
  | unchecked (c : CheckErrorsE)
  | wasmRuntime
  | panicked

def LOG2_ERROR_MESSAGE : String := "log2 must be passed a positive integer"
def SQRTI_ERROR_MESSAGE : String := "sqrti must be passed a positive integer"
def POW_ERROR_MESSAGE : String := "Power argument to (pow ...) must be a u32 integer"

/-- Models the `ErrorMap` enum (error_mapping.rs:19-78). -/
inductive ErrorMap where
  | notClarityError
  | arithmeticOverflow
  | arithmeticUnderflow
  | divisionByZero
  | arithmeticLog2Error
  | arithmeticSqrtiError
  | badTypeConstruction
  | panicKind
  | shortReturnAssertionFailure
  | arithmeticPowError
  | nameAlreadyUsed
  | shortReturnExpectedValueResponse
  | shortReturnExpectedValueOptional
  | shortReturnExpectedValue
  | argumentCountMismatch
  | notMapped
deriving DecidableEq, Repr

/-- Models `impl From<i32> for ErrorMap` (error_mapping.rs:80-101). -/
def errorMapFrom (code : Int) : ErrorMap :=
  if code = -1 then .notClarityError
  else if code = 0 then .arithmeticOverflow
  else if code = 1 then .arithmeticUnderflow
  else if code = 2 then .divisionByZero
  else if code = 3 then .arithmeticLog2Error
  else if code = 4 then .arithmeticSqrtiError
  else if code = 5 then .badTypeConstruction
  else if code = 6 then .panicKind
  else if code = 7 then .shortReturnAssertionFailure
  else if code = 8 then .arithmeticPowError
  else if code = 9 then .nameAlreadyUsed
  else if code = 10 then .shortReturnExpectedValueResponse
  else if code = 11 then .shortReturnExpectedValueOptional
  else if code = 12 then .shortReturnExpectedValue
  else if code = 13 then .argumentCountMismatch
  else .notMapped

/-- The globals read by the resolver (all `i32` in the emitted module;
nonnegative whenever set by generated code) together with the instance
memory. -/
structure ResolverState where
  runtime_error_code : Int
  runtime_error_value_offset : Nat
  runtime_error_type_ser_offset : Nat
  runtime_error_type_ser_len : Nat
  runtime_error_arg_offset : Nat
  runtime_error_arg_len : Nat
  mem : Mem

/-- Models `short_return_value` (error_mapping.rs:326-348): read the
serialized type, recover the type, and deserialize the carried value from
memory with `read_from_wasm_indirect`.  `none` models the panics on failure. -/
def short_return_value (sigDecode : List Nat → Option Ty) (fuel : Nat)
    (st : ResolverState) : Option Value := do
  let type_ser_bytes :=
    loadBytes st.mem st.runtime_error_type_ser_offset st.runtime_error_type_ser_len
  let value_ty ← sigDecode type_ser_bytes
  (read_from_wasm_indirect fuel st.mem value_ty st.runtime_error_value_offset).toOption

/-! Digit-sequence scanning for the code-13 branch: the source applies the
regex `expected: (\d+) got: (\d+)` to the carried bytes and unwraps the two
captures (error_mapping.rs:289-292). -/

def isDigitByte (b : Nat) : Bool := 48 ≤ b && b ≤ 57

def natOfDigits (ds : List Nat) : Nat :=
  ds.foldl (fun acc d => acc * 10 + (d - 48)) 0

def strBytes (s : String) : List Nat := s.data.map Char.toNat

/-- Match the regex pattern anchored at the head of `bs`. -/
def matchArgCountsAt (bs : List Nat) : Option (Nat × Nat) := do
  let pat1 := strBytes "expected: "
  if bs.take pat1.length ≠ pat1 then none else
  let rest1 := bs.drop pat1.length
  let ds1 := rest1.takeWhile isDigitByte
  if ds1.isEmpty then none else
  let rest2 := rest1.drop ds1.length
  let pat2 := strBytes " got: "
  if rest2.take pat2.length ≠ pat2 then none else
  let rest3 := rest2.drop pat2.length
  let ds2 := rest3.takeWhile isDigitByte
  if ds2.isEmpty then none else
  some (natOfDigits ds1, natOfDigits ds2)

/-- First match of the regex anywhere in the byte string (leftmost match, as
`Regex::captures` finds). -/
def parseArgCounts : List Nat → Option (Nat × Nat)
  | [] => none
  | b :: rest => (matchArgCountsAt (b :: rest)).orElse (fun _ => parseArgCounts rest)

/-- Models `from_runtime_error_code` (error_mapping.rs:184-297). -/
def from_runtime_error_code (sigDecode : List Nat → Option Ty) (fuel : Nat)
    (st : ResolverState) : VmError :=
  match errorMapFrom st.runtime_error_code with
  | .notClarityError => .wasmRuntime
  | .arithmeticOverflow => .runtime .arithmeticOverflow
  | .arithmeticUnderflow => .runtime .arithmeticUnderflow
  | .divisionByZero => .runtime .divisionByZero
  | .arithmeticLog2Error => .runtime (.arithmeticMsg LOG2_ERROR_MESSAGE)
  | .arithmeticSqrtiError => .runtime (.arithmeticMsg SQRTI_ERROR_MESSAGE)
  | .badTypeConstruction => .runtime .badTypeConstruction
  | .panicKind => .runtime .unwrapFailure
  | .shortReturnAssertionFailure =>
      match short_return_value sigDecode fuel st with
      | some v => .shortReturn (.assertionFailed v)
      | none => .panicked
  | .arithmeticPowError => .runtime (.arithmeticMsg POW_ERROR_MESSAGE)
  | .nameAlreadyUsed =>
      .unchecked (.nameAlreadyUsed
        (stringOfBytes
          (loadBytes st.mem st.runtime_error_arg_offset st.runtime_error_arg_len)))
  | .shortReturnExpectedValueResponse =>
      -- the carried value is wrapped in `Value::Response { committed: false, .. }`
      match short_return_value sigDecode fuel st with
      | some v => .shortReturn (.expectedValue (.errV v))
      | none => .panicked
  | .shortReturnExpectedValueOptional =>
      -- error_mapping.rs:256-260: the payload is the constant
      -- `Value::Optional(OptionalData { data: None })`; no global except the
      -- code and no memory is read on this branch
      .shortReturn (.expectedValue .noneV)
  | .shortReturnExpectedValue =>
      match short_return_value sigDecode fuel st with
      | some v => .shortReturn (.expectedValue v)
      | none => .panicked
  | .argumentCountMismatch =>
      match parseArgCounts
          (loadBytes st.mem st.runtime_error_arg_offset st.runtime_error_arg_len) with
      | some (expected, got) => .unchecked (.incorrectArgumentCount expected got)
      | none => .panicked
  | .notMapped => .panicked

/-! ## stx-transfer? argument-count check (claim C8)

Models the arity branch of `StxTransfer::traverse`
(src/clar2wasm/src/words/stx.rs:67-79): when the argument count differs from
3, the generator interns `Value::UInt(3)` and `Value::UInt(args.len())` as
literals, emits code setting `runtime-error-arg-offset` to the offset of the
first literal and `runtime-error-arg-len` to the sum of the two literal
lengths, then calls `stdlib.runtime-error` with
`ErrorMap::ArgumentCountMismatch as i32` (= 13). -/

/-- The literal pool: a byte region starting at `base`, appended in order
(spec §4.2: an ordered store at the low end of linear memory). -/
structure LiteralPool where
  base : Nat
  bytes : List Nat

/-- Modelled from the spec: `WasmGenerator::add_literal` is declared in a
module of this repository that is not part of the snapshot.  Interning a
`UInt` literal appends its serialized image — spec §4.1: "Integer
serialization is little-endian, low 8 bytes then high 8 bytes", i.e. its
16-byte little-endian image — and returns its `(offset, length)`. -/
def add_literal_uint (pool : LiteralPool) (n : Nat) : LiteralPool × Nat × Nat :=
  ({ pool with bytes := pool.bytes ++ leBytes 16 n },
   pool.base + pool.bytes.length, 16)

/-- The arity-error emission of `StxTransfer::traverse`: the updated literal
pool, the values assigned to the `runtime-error-arg-offset` and
`runtime-error-arg-len` globals, and the runtime error code passed to
`stdlib.runtime-error`.  `none` when `args.len() == 3` (no error emitted). -/
def stx_transfer_arity_check (pool : LiteralPool) (argc : Nat) :
    Option (LiteralPool × Nat × Nat × Int) :=
  if argc ≠ 3 then
    let r1 := add_literal_uint pool 3
    let r2 := add_literal_uint r1.1 argc
    some (r2.1, r1.2.1, r1.2.2 + r2.2.2, 13)
  else none

/-! ## define-data-var and define-constant name checks (claim C9)

Models the name bookkeeping of `DefineDataVar::traverse`
(src/clar2wasm/src/words/data_vars.rs:15-93) and `DefineConstant::traverse`
(src/clar2wasm/src/words/constants.rs:16-91).  Literal interning, initializer
evaluation, the emitted memory writes and the host call do not affect name
bookkeeping and are elided; the traversal result is the updated generator
state or the structured `GeneratorError`. -/

/-- The name-relevant parts of `WasmGenerator`.  `reserved` models
`WasmGenerator::is_reserved_name` (declared in a module of this repository
that is not part of the snapshot; modelled from the spec §4.6.4: an
epoch-dependent reserved-name predicate consulted before defining any
top-level name). -/
structure TLGenState where
  reserved : String → Bool
  datavars_types : List (String × Ty)
  constants : List (String × Nat)

def is_reserved_name (g : TLGenState) (name : String) : Bool := g.reserved name

/-- Models `DefineDataVar::traverse`: a reserved name fails immediately
(data_vars.rs:24-29); at the end, `datavars_types.insert(name, ty)` returning
a previous binding fails with "Data var defined twice" (data_vars.rs:86-90).
The source inserts and then checks the returned previous value; on the error
path no module is returned, so this is modelled as check-then-insert. -/
def define_data_var_traverse (g : TLGenState) (name : String) (ty : Ty) :
    Except GeneratorError TLGenState :=
  if is_reserved_name g name then
    .error (.internalError ("Name already used " ++ name))
  else if (g.datavars_types.lookup name).isSome then
    .error (.internalError ("Data var defined twice: " ++ name))
  else
    .ok { g with datavars_types := g.datavars_types ++ [(name, ty)] }

/-- Models `DefineConstant::traverse`: a reserved name fails immediately
(constants.rs:24-30); otherwise `generator.constants.insert(name, offset)`
(constants.rs:88) — the returned previous binding is discarded, so a
duplicate user name silently overwrites the earlier one. -/
def define_constant_traverse (g : TLGenState) (name : String) (offset : Nat) :
    Except GeneratorError TLGenState :=
  if is_reserved_name g name then
    .error (.internalError ("Name already used " ++ name))
  else
    .ok { g with constants := (name, offset) :: g.constants }

/-! ## is-eq (claim C2)

Models the runtime meaning, at the level of source values, of the code
emitted by `wasm_equal` and its helpers (src/clar2wasm/src/words/equal.rs:161-729).
The emitted code operates on the operands' flat-slot representations; the
model takes the operands as values, with these conventions:

* `stdlib.is-eq-int` (the stdlib module is not part of the snapshot; spec
  §4.4: "Equality helpers `is-eq-int` (128-bit)") compares the two 128-bit
  slot patterns — for two well-typed operands of the same integer type this
  is equality of the carried numbers.
* `stdlib.is-eq-bytes` (spec §4.4: "length-prefixed byte compare") compares
  the two `(offset, length)` regions byte by byte — equality of the payload
  images (`bytesImage`).
* An inactive variant arm's slots hold the generator's zero placeholders;
  `placeholderVal` is the value whose flat image such zero slots form (an
  empty byte region for the in-memory types).
* In `wasm_equal_optional` (equal.rs:293-356), when both variants are 0 the
  emitted `then` block still evaluates the inner comparison on those
  placeholder slots and ORs the result with the `is-none` check (`I32Or` is
  not short-circuiting); the model evaluates the placeholder comparison (it
  can trap through the `NoType → unreachable` arm) and ORs with `true`.
* `wasm_equal_tuple` (equal.rs:451-584) builds a bottom-up if-else chain
  whose meaning is a field-by-field short-circuit AND in layout order;
  `wasm_equal_list` (equal.rs:586-729) compares the payload lengths divided
  by the element sizes and then runs the pairwise loop with short-circuit.
* Types with no match arm — in particular UTF-8 strings — fall to
  `Err(GeneratorError::NotImplemented)` (equal.rs:243).

`EqErr.illTyped` marks operand shapes that cannot reach the emitted code for
well-typed operands (the flat representation of a value always matches its
static type). -/

inductive EqErr where
  | notImplementedGen
  | unreachableTrap
  | illTyped
  | fuelOut
deriving DecidableEq, Repr

/-- The byte image a value's `(offset, length)` region holds in memory (see
the in-memory representation written by `write_to_wasm`). -/
def bytesImage : Value → Option (List Nat)
  | .buffV d => some d
  | .asciiV d => some d
  | .principalV version hash name =>
      some ([version] ++ hash ++ (if name.isEmpty then [0] else name.length % 256 :: name))
  | _ => none

/-- The value whose flat image is the generator's zero placeholder slots for
a type (inactive variant arms): zero integers, `false`, an empty `(0, 0)`
byte region for the in-memory types (exposed to the comparison only through
`bytesImage`, hence `buffV []` for buffers and principals alike), the err
variant with placeholder payloads for responses, `none` for optionals. -/
def placeholderVal : Nat → Ty → Option Value
  | 0, _ => none
  | _ + 1, .intT => some (.intV 0)
  | _ + 1, .uintT => some (.uintV 0)
  | _ + 1, .boolT => some (.boolV false)
  | _ + 1, .buffT _ => some (.buffV [])
  | _ + 1, .asciiT _ => some (.asciiV [])
  | _ + 1, .utf8T _ => some (.buffV [])
  | _ + 1, .principalT => some (.buffV [])
  | _ + 1, .listT e _ => some (.listV e [])
  | fuel + 1, .tupleT fields => do
      let fs ← fields.mapM (fun kv => do
        let v ← placeholderVal fuel kv.2
        pure (kv.1, v))
      some (.tupV fs)
  | _ + 1, .optionalT _ => some .noneV
  | fuel + 1, .responseT _ errTy => do
      let e ← placeholderVal fuel errTy
      some (.errV e)
  | _ + 1, .noneTy => some (.intV 0)

/-- Field-by-field short-circuit AND (the meaning of the bottom-up if-else
chain of `wasm_equal_tuple`), parameterized by the element comparison. -/
def eqFields (cmp : Ty → Ty → Value → Value → Except EqErr Bool) :
    List (String × Ty) → List (String × Ty) →
    List (String × Value) → List (String × Value) → Except EqErr Bool
  | [], [], [], [] => .ok true
  | t :: ts, s :: ss, a :: as1, b :: bs1 => do
      let r ← cmp t.2 s.2 a.2 b.2
      if r then eqFields cmp ts ss as1 bs1 else .ok false
  | _, _, _, _ => .error .illTyped

/-- Pairwise short-circuit element comparison (the meaning of the
`wasm_equal_list` loop), parameterized by the element comparison applied at
the two element types. -/
def eqElems (cmp : Value → Value → Except EqErr Bool) :
    List Value → List Value → Except EqErr Bool
  | [], [] => .ok true
  | a :: as1, b :: bs1 => do
      let r ← cmp a b
      if r then eqElems cmp as1 bs1 else .ok false
  | _, _ => .error .illTyped

def wasm_equal : Nat → Ty → Ty → Value → Value → Except EqErr Bool
  | 0, _, _, _, _ => .error .fuelOut
  | _ + 1, .noneTy, _, _, _ =>
      -- equal.rs:179-182: `builder.unreachable()`
      .error .unreachableTrap
  | _ + 1, .boolT, _, v1, v2 =>
      -- equal.rs:183-189: I32Eq on the single slots
      match v1, v2 with
      | .boolV b1, .boolV b2 => .ok (b1 == b2)
      | _, _ => .error .illTyped
  | fuel + 1, .intT, nth_ty, v1, v2 =>
      if tyEqB (fuel + 1) .intT nth_ty then
        match v1, v2 with
        | .intV i1, .intV i2 => .ok (i1 == i2)
        | _, _ => .error .illTyped
      else .ok false
  | fuel + 1, .uintT, nth_ty, v1, v2 =>
      if tyEqB (fuel + 1) .uintT nth_ty then
        match v1, v2 with
        | .uintV u1, .uintV u2 => .ok (u1 == u2)
        | _, _ => .error .illTyped
      else .ok false
  | fuel + 1, .buffT c, nth_ty, v1, v2 =>
      if tyEqB (fuel + 1) (.buffT c) nth_ty then
        match bytesImage v1, bytesImage v2 with
        | some b1, some b2 => .ok (b1 == b2)
        | _, _ => .error .illTyped
      else .ok false
  | fuel + 1, .asciiT c, nth_ty, v1, v2 =>
      if tyEqB (fuel + 1) (.asciiT c) nth_ty then
        match bytesImage v1, bytesImage v2 with
        | some b1, some b2 => .ok (b1 == b2)
        | _, _ => .error .illTyped
      else .ok false
  | fuel + 1, .principalT, nth_ty, v1, v2 =>
      if tyEqB (fuel + 1) .principalT nth_ty then
        match bytesImage v1, bytesImage v2 with
        | some b1, some b2 => .ok (b1 == b2)
        | _, _ => .error .illTyped
      else .ok false
  | fuel + 1, .optionalT some_ty, nth_ty, v1, v2 =>
      match nth_ty with
      | .optionalT nth_some_ty =>
          match v1, v2 with
          | .noneV, .noneV =>
              -- both variants 0: `is-none` gives true, ORed with the inner
              -- comparison evaluated on the placeholder slots (except when
              -- `some_ty` is NoType, where the code pushes constant 1)
              (match some_ty with
               | .noneTy => .ok true
               | _ => do
                  let p1 ← (placeholderVal fuel some_ty).elim (.error .fuelOut) .ok
                  let p2 ← (placeholderVal fuel nth_some_ty).elim (.error .fuelOut) .ok
                  let r ← wasm_equal fuel some_ty nth_some_ty p1 p2
                  .ok (true || r))
          | .someV a, .someV b =>
              (match some_ty with
               | .noneTy => .ok true
               | _ => do
                  let r ← wasm_equal fuel some_ty nth_some_ty a b
                  .ok (false || r))
          | .noneV, .someV _ => .ok false
          | .someV _, .noneV => .ok false
          | _, _ => .error .illTyped
      | _ => .ok false
  | fuel + 1, .responseT ok_ty err_ty, nth_ty, v1, v2 =>
      match nth_ty with
      | .responseT nth_ok_ty nth_err_ty =>
          match v1, v2 with
          | .okV a, .okV b => wasm_equal fuel ok_ty nth_ok_ty a b
          | .errV a, .errV b => wasm_equal fuel err_ty nth_err_ty a b
          | .okV _, .errV _ => .ok false
          | .errV _, .okV _ => .ok false
          | _, _ => .error .illTyped
      | _ => .ok false
  | fuel + 1, .tupleT fields, nth_ty, v1, v2 =>
      match nth_ty with
      | .tupleT nth_fields =>
          match v1, v2 with
          | .tupV fs1, .tupV fs2 =>
              eqFields (fun t s a b => wasm_equal fuel t s a b)
                fields nth_fields fs1 fs2
          | _, _ => .error .illTyped
      | _ => .ok false
  | fuel + 1, .listT list_ty _, nth_ty, v1, v2 =>
      match nth_ty with
      | .listT nth_list_ty _ =>
          match v1, v2 with
          | .listV _ vs1, .listV _ vs2 =>
              -- effective sizes: payload lengths divided by the element
              -- sizes; for well-typed flat representations these are the
              -- element counts
              if vs1.length = vs2.length then
                eqElems (fun a b => wasm_equal fuel list_ty nth_list_ty a b) vs1 vs2
              else .ok false
          | _, _ => .error .illTyped
      | _ => .ok false
  | _ + 1, .utf8T _, _, _, _ =>
      -- equal.rs:243: `_ => Err(GeneratorError::NotImplemented)`
      .error .notImplementedGen

/-- Types free of NoType components. -/
def noTypeFree : Nat → Ty → Bool
  | 0, _ => false
  | _ + 1, .noneTy => false
  | fuel + 1, .listT e _ => noTypeFree fuel e
  | fuel + 1, .tupleT fields => fields.all (fun p => noTypeFree fuel p.2)
  | fuel + 1, .optionalT t => noTypeFree fuel t
  | fuel + 1, .responseT o e => noTypeFree fuel o && noTypeFree fuel e
  | _ + 1, _ => true

/-! # Theorems

Base lemmas about the byte encodings and the memory model, then the claim
theorems. -/

theorem leBytes_length (w n : Nat) : (leBytes w n).length = w := by
  induction w generalizing n with
  | zero => rfl
  | succ w ih => simp [leBytes, ih]

theorem fromLe_leBytes (w n : Nat) : fromLe (leBytes w n) = n % 2 ^ (8 * w) := by
  induction w generalizing n with
  | zero => simp [leBytes, fromLe, Nat.mod_one]
  | succ w ih =>
    simp only [leBytes, fromLe, ih, Nat.mod_mod_of_dvd _ dvd_rfl]
    rw [show 8 * (w + 1) = 8 + 8 * w by ring, pow_add,
      show (2 : Nat) ^ 8 = 256 by norm_num, Nat.mod_mul]

theorem fromLe_leBytes_of_lt {w n : Nat} (h : n < 2 ^ (8 * w)) :
    fromLe (leBytes w n) = n := by
  rw [fromLe_leBytes, Nat.mod_eq_of_lt h]

theorem fromLeI32_leBytes_of_lt {n : Nat} (h : n < 2 ^ 31) :
    fromLeI32 (leBytes 4 n) = (n : Int) := by
  have h32 : n < 2 ^ (8 * 4) := lt_of_lt_of_le h (by norm_num)
  rw [fromLeI32, fromLe_leBytes_of_lt h32, if_pos h]

theorem loadBytes_length (m : Mem) (off n : Nat) : (loadBytes m off n).length = n := by
  simp [loadBytes]

theorem storeBytes_eq_of_notin (m : Mem) (off : Nat) (bs : List Nat) (a : Nat)
    (h : a < off ∨ off + bs.length ≤ a) : storeBytes m off bs a = m a := by
  simp only [storeBytes]
  rw [if_neg]; omega

theorem loadBytes_congr {m1 m2 : Mem} {off n : Nat}
    (h : ∀ a, off ≤ a → a < off + n → m1 a = m2 a) :
    loadBytes m1 off n = loadBytes m2 off n := by
  simp only [loadBytes]
  apply List.map_congr_left
  intro i hi
  simp only [List.mem_range] at hi
  exact h (off + i) (Nat.le_add_right _ _) (by omega)

theorem loadBytes_congr_agree {m1 m2 : Mem} {off n : Nat}
    (h : agreeOn m1 m2 off n) : loadBytes m1 off n = loadBytes m2 off n :=
  loadBytes_congr h

theorem loadBytes_storeBytes (m : Mem) (off : Nat) (bs : List Nat) :
    loadBytes (storeBytes m off bs) off bs.length = bs := by
  apply List.ext_getElem
  · simp [loadBytes_length]
  · intro i h1 h2
    simp only [loadBytes, List.getElem_map, List.getElem_range, storeBytes]
    rw [if_pos (by simp [loadBytes_length] at h1; omega)]
    simp only [Nat.add_sub_cancel_left]
    exact List.getD_eq_getElem bs 0 h2

theorem storeBytes_at {m : Mem} {off : Nat} {bs : List Nat} {a : Nat}
    (h1 : off ≤ a) (h2 : a < off + bs.length) :
    storeBytes m off bs a = bs.getD (a - off) 0 := by
  simp only [storeBytes]
  rw [if_pos ⟨h1, h2⟩]

theorem loadBytes_storeBytes_disj {m : Mem} {off1 n off2 : Nat} {bs : List Nat}
    (h : off1 + n ≤ off2 ∨ off2 + bs.length ≤ off1) :
    loadBytes (storeBytes m off2 bs) off1 n = loadBytes m off1 n :=
  loadBytes_congr fun a ha1 ha2 => storeBytes_eq_of_notin _ _ _ _ (by omega)

theorem agreeOn_mono {m1 m2 : Mem} {off n off' n' : Nat}
    (h : agreeOn m1 m2 off n) (h1 : off ≤ off') (h2 : off' + n' ≤ off + n) :
    agreeOn m1 m2 off' n' :=
  fun a ha1 ha2 => h a (by omega) (by omega)

/-- Two's-complement 128-bit roundtrip: splitting an in-range `i128` into its
unsigned pattern and decoding with the sign test recovers it. -/
theorem int_twos_roundtrip {i : Int} (h1 : -(2 ^ 127) ≤ i) (h2 : i < 2 ^ 127) :
    (i % (2 ^ 128 : Int)).toNat < 2 ^ 128 ∧
      (if (i % (2 ^ 128 : Int)).toNat < 2 ^ 127 then
          (((i % (2 ^ 128 : Int)).toNat : Nat) : Int)
        else (((i % (2 ^ 128 : Int)).toNat : Nat) : Int) - 2 ^ 128) = i := by
  constructor
  · omega
  · split <;> omega

theorem tyEqB_eq : ∀ (fuel : Nat) (t1 t2 : Ty), tyEqB fuel t1 t2 = true → t1 = t2 := by
  intro fuel
  induction fuel with
  | zero => intro t1 t2 h; simp [tyEqB] at h
  | succ fuel ih =>
    intro t1 t2 h
    cases t1 <;> cases t2 <;>
      first
        | rfl
        | exact Bool.noConfusion h
        | skip
    case buffT.buffT => simp_all [tyEqB]
    case asciiT.asciiT => simp_all [tyEqB]
    case utf8T.utf8T => simp_all [tyEqB]
    case listT.listT e1 c1 e2 c2 =>
      simp only [tyEqB, Bool.and_eq_true, beq_iff_eq] at h
      rw [ih e1 e2 h.1, h.2]
    case tupleT.tupleT f1 f2 =>
      simp only [tyEqB, Bool.and_eq_true, beq_iff_eq, List.all_eq_true] at h
      obtain ⟨hlen, hall⟩ := h
      congr 1
      induction f1 generalizing f2 with
      | nil =>
        cases f2 with
        | nil => rfl
        | cons b bs => simp at hlen
      | cons a as1 ihl =>
        cases f2 with
        | nil => simp at hlen
        | cons b bs =>
          have hhead := hall (a, b) (by simp [List.zip_cons_cons])
          simp only [Bool.and_eq_true, beq_iff_eq] at hhead
          have htail : as1 = bs := by
            apply ihl
            · simpa using hlen
            · intro p hp
              exact hall p (by simp only [List.zip_cons_cons, List.mem_cons]; right; exact hp)
          rw [htail]
          have hab : a = b := by
            obtain ⟨h1, h2⟩ := hhead
            have := ih _ _ h2
            cases a; cases b; simp_all
          rw [hab]
    case optionalT.optionalT s1 s2 =>
      simp only [tyEqB] at h
      rw [ih s1 s2 h]
    case responseT.responseT o1 e1 o2 e2 =>
      simp only [tyEqB, Bool.and_eq_true] at h
      rw [ih o1 o2 h.1, ih e1 e2 h.2]

theorem foldl_option_size_none (fuel : Nat) (l : List (String × Ty)) :
    l.foldl
      (fun acc p => do
        let s ← acc
        let fs ← get_type_size fuel p.2
        pure (s + fs))
      none = none := by
  induction l with
  | nil => rfl
  | cons p ps ih => simpa using ih

theorem foldl_option_size_eq (fuel : Nat) (l : List (String × Ty)) :
    ∀ acc : Nat,
      l.foldl
        (fun acc p => do
          let s ← acc
          let fs ← get_type_size fuel p.2
          pure (s + fs))
        (some acc) =
      (l.mapM (fun p => get_type_size fuel p.2)).map (fun xs => acc + xs.sum) := by
  induction l with
  | nil => intro acc; rw [List.mapM_nil]; simp
  | cons p ps ih =>
    intro acc
    rw [List.foldl_cons, List.mapM_cons]
    cases hp : get_type_size fuel p.2 with
    | none => exact foldl_option_size_none fuel ps
    | some s =>
      have h2 := ih (acc + s)
      cases hps : ps.mapM (fun p => get_type_size fuel p.2) with
      | none =>
        rw [hps] at h2
        exact h2.trans rfl
      | some xs =>
        rw [hps] at h2
        refine h2.trans ?_
        show some (acc + s + xs.sum) = some (acc + (s :: xs).sum)
        rw [List.sum_cons]
        exact congrArg _ (by omega)

theorem get_type_size_tuple (fuel : Nat) (fields : List (String × Ty)) :
    get_type_size (fuel + 1) (.tupleT fields) =
      (fields.mapM (fun p => get_type_size fuel p.2)).map List.sum := by
  show fields.foldl _ (some 0) = _
  rw [foldl_option_size_eq]
  cases fields.mapM (fun p => get_type_size fuel p.2) <;> simp

theorem distinctKeys_lookup : ∀ (l : List (String × Ty)),
    distinctKeys (l.map Prod.fst) = true →
    ∀ i (hi : i < l.length), l.lookup l[i].1 = some l[i].2 := by
  intro l
  induction l with
  | nil => intro _ i hi; simp at hi
  | cons p ps ih =>
    intro hd i hi
    simp only [List.map_cons, distinctKeys, Bool.and_eq_true, Bool.not_eq_true',
      List.any_eq_false] at hd
    obtain ⟨hnot, hdk⟩ := hd
    match i with
    | 0 => simp [List.lookup]
    | i + 1 =>
      have hi' : i < ps.length := by simpa using hi
      have hmem : ps[i].1 ∈ ps.map Prod.fst :=
        List.mem_map_of_mem Prod.fst (ps.getElem_mem hi')
      have hne : (ps[i].1 == p.1) = false := by simpa using hnot _ hmem
      simp only [List.getElem_cons_succ, List.lookup, hne]
      exact ih hdk i hi'

theorem range_mapM_ok {α : Type} (g : Nat → Except WErr α) (f : Nat → α) :
    ∀ n : Nat, (∀ k, k < n → g k = .ok (f k)) →
      (List.range n).mapM g = .ok ((List.range n).map f) := by
  intro n
  induction n with
  | zero => intro _; rfl
  | succ n ih =>
    intro h
    rw [List.range_succ, List.mapM_append, List.map_append]
    rw [ih (fun k hk => h k (Nat.lt_succ_of_lt hk))]
    simp only [List.mapM_cons, List.mapM_nil, List.map_cons, List.map_nil,
      h n (Nat.lt_succ_self n)]
    rfl

theorem range_map_getD (vs : List Value) (d : Value) :
    (List.range vs.length).map (fun k => vs.getD k d) = vs := by
  apply List.ext_getElem
  · simp
  · intro i h1 h2
    simp only [List.getElem_map, List.getElem_range]
    exact List.getD_eq_getElem vs d h2

/-- Every inhabited type has a positive in-memory size (Clarity tuples are
non-empty, which `hasType` enforces). -/
theorem hasType_size_pos : ∀ (fuel : Nat) (v : Value) (ty : Ty) (s : Nat),
    hasType fuel v ty = true → get_type_size fuel ty = some s → 1 ≤ s := by
  intro fuel
  induction fuel with
  | zero => intro v ty s h; simp [hasType] at h
  | succ fuel ih =>
    intro v ty s h hs
    match v, ty with
    | .intV _, .intT => simp [get_type_size] at hs; omega
    | .uintV _, .uintT => simp [get_type_size] at hs; omega
    | .boolV _, .boolT => simp [get_type_size] at hs; omega
    | .buffV _, .buffT _ => simp [get_type_size] at hs; omega
    | .asciiV _, .asciiT _ => simp [get_type_size] at hs; omega
    | .utf8V _, .utf8T _ => simp [get_type_size] at hs; omega
    | .principalV _ _ _, .principalT => simp [get_type_size] at hs; omega
    | .listV _ _, .listT _ _ => simp [get_type_size] at hs; omega
    | .tupV fs, .tupleT fields =>
      simp only [hasType, Bool.and_eq_true, beq_iff_eq, List.all_eq_true] at h
      obtain ⟨⟨⟨hlen, hne⟩, _⟩, hall⟩ := h
      cases fields with
      | nil => simp at hne
      | cons kt kts =>
        cases fs with
        | nil => simp at hlen
        | cons kv kvs =>
          have hhead := hall (kv, kt) (by simp [List.zip_cons_cons])
          simp only [Bool.and_eq_true] at hhead
          cases hsz : get_type_size fuel kt.2 with
          | none =>
            have hz : get_type_size (fuel + 1) (.tupleT (kt :: kts)) = none := by
              show List.foldl _ (some 0) (kt :: kts) = none
              rw [List.foldl_cons]
              have hinit : (do
                  let s ← some 0
                  let fs ← get_type_size fuel kt.2
                  pure (s + fs) : Option Nat) = none := by rw [hsz]; rfl
              rw [hinit]
              exact foldl_option_size_none fuel kts
            rw [hz] at hs
            exact Option.noConfusion hs
          | some s0 =>
            have h1 : 1 ≤ s0 := ih kv.2 kt.2 s0 hhead.2 hsz
            have hz : get_type_size (fuel + 1) (.tupleT (kt :: kts)) =
                (kts.mapM (fun p => get_type_size fuel p.2)).map
                  (fun xs => 0 + s0 + xs.sum) := by
              show List.foldl _ (some 0) (kt :: kts) = _
              rw [List.foldl_cons]
              have hinit : (do
                  let s ← some 0
                  let fs ← get_type_size fuel kt.2
                  pure (s + fs) : Option Nat) = some (0 + s0) := by rw [hsz]; rfl
              rw [hinit]
              exact foldl_option_size_eq fuel kts (0 + s0)
            rw [hz] at hs
            cases hrest : kts.mapM (fun p => get_type_size fuel p.2) with
            | none =>
              rw [hrest] at hs
              exact Option.noConfusion hs
            | some xs =>
              rw [hrest] at hs
              simp only [Option.map_some', Option.some.injEq] at hs
              omega
    | .noneV, .optionalT inner =>
      simp only [get_type_size] at hs
      cases hin : get_type_size fuel inner <;> simp [hin] at hs <;> omega
    | .someV _, .optionalT inner =>
      simp only [get_type_size] at hs
      cases hin : get_type_size fuel inner <;> simp [hin] at hs <;> omega
    | .okV _, .responseT o e =>
      simp only [get_type_size] at hs
      cases ho : get_type_size fuel o <;> cases he : get_type_size fuel e <;>
        simp [ho, he] at hs <;> omega
    | .errV _, .responseT o e =>
      simp only [get_type_size] at hs
      cases ho : get_type_size fuel o <;> cases he : get_type_size fuel e <;>
        simp [ho, he] at hs <;> omega

/-! Sanity checks of the marshalling embedding: write then read back a few
concrete values. -/

example :
    (write_to_wasm 9 mem0 .intT 0 100 (.intV (-7)) true).bind
      (fun r => read_from_wasm_indirect 9 r.1 .intT 0) = .ok (.intV (-7)) := by rfl

example :
    (write_to_wasm 9 mem0 (.buffT 5) 0 100 (.buffV [1, 2, 3]) true).bind
      (fun r => read_from_wasm_indirect 9 r.1 (.buffT 5) 0) = .ok (.buffV [1, 2, 3]) := by
  rfl

example :
    (write_to_wasm 9 mem0 (.listT .intT 4) 0 100
        (.listV .intT [.intV 1, .intV 2]) true).bind
      (fun r => read_from_wasm_indirect 9 r.1 (.listT .intT 4) 0) =
      .ok (.listV .intT [.intV 1, .intV 2]) := by rfl

example :
    (write_to_wasm 9 mem0 (.responseT .intT .noneTy) 0 100 (.okV (.intV 3)) true).bind
      (fun r => read_from_wasm_indirect 9 r.1 (.responseT .intT .noneTy) 0) =
      .ok (.okV (.intV 3)) := by rfl

example :
    (write_to_wasm 9 mem0 (.tupleT [("a", .intT), ("b", .asciiT 8)]) 0 100
        (.tupV [("a", .intV 1), ("b", .asciiV [104, 105])]) true).bind
      (fun r =>
        read_from_wasm_indirect 9 r.1 (.tupleT [("a", .intT), ("b", .asciiT 8)]) 0) =
      .ok (.tupV [("a", .intV 1), ("b", .asciiV [104, 105])]) := by rfl

example :
    (write_to_wasm 9 mem0 (.optionalT (.listT (.buffT 3) 2)) 0 100
        (.someV (.listV (.buffT 3) [.buffV [7], .buffV [8, 9]])) true).bind
      (fun r => read_from_wasm_indirect 9 r.1 (.optionalT (.listT (.buffT 3) 2)) 0) =
      .ok (.someV (.listV (.buffT 3) [.buffV [7], .buffV [8, 9]])) := by rfl

example :
    (write_to_wasm 9 mem0 .principalT 0 100
        (.principalV 26 (List.replicate 20 1) [102, 111, 111]) true).bind
      (fun r => read_from_wasm_indirect 9 r.1 .principalT 0) =
      .ok (.principalV 26 (List.replicate 20 1) [102, 111, 111]) := by rfl

/-! ## Claim C3 -/

/-- C3.  `simple_typed_multi_value` emits exactly `n − 1` calls to the binary
stdlib helper, as the claim states — but the value computed by that call
chain on the evaluation stack is not the left-associative fold.  At the
claim's own form family, for `(- 1 2 3)`: the three arguments are pushed
left to right (stack top-first `[3, 2, 1]`), the first call computes
`2 - 3`, the second `1 - (2 - 3)`, so the result is `2`, while the
left-associative fold `(1 - 2) - 3` required by the claim (and by the
repository's own `test_sub`, ignored with "see issue #282") is `-4`. -/
theorem C3_sub_not_left_associative :
    simple_typed_multi_value [.intT, .intT, .intT] .intT "sub" =
        .ok [.callFn "stdlib.sub-int", .callFn "stdlib.sub-int"] ∧
      execInstrs (· - ·) [.callFn "stdlib.sub-int", .callFn "stdlib.sub-int"]
          [3, 2, 1] = some [2] ∧
      [2, 3].foldl (· - ·) (1 : Int) = -4 ∧
      ((2 : Int) ≠ -4) := by
  refine ⟨rfl, rfl, by decide, by decide⟩

/-! ## Claim C4 -/

/-- C4 (counterexample).  A resolver state with `runtime-error-code = 11`
whose memory and type-serialization globals describe a perfectly readable
carried value (the 128-bit integer 0 at offset 0): `short_return_value`
would reconstruct `Int 0`, but the code-11 branch reports the payload
`none`, not the carried value wrapped in an Optional (`(some 0)`), and never
reads memory. -/
theorem C4_counterexample :
    from_runtime_error_code (fun _ => some .intT) 9 ⟨11, 0, 0, 0, 0, 0, mem0⟩ =
        .shortReturn (.expectedValue .noneV) ∧
      short_return_value (fun _ => some .intT) 9 ⟨11, 0, 0, 0, 0, 0, mem0⟩ =
        some (.intV 0) ∧
      VmError.shortReturn (.expectedValue .noneV) ≠
        .shortReturn (.expectedValue (.someV (.intV 0))) := by
  refine ⟨rfl, rfl, fun h => ?_⟩
  injection h with h1
  injection h1 with h2
  exact Value.noConfusion h2

/-- C4 (amended).  Whenever the runtime-error-code global equals 11, the
resolver reports a short-return expected-value error whose payload is the
Optional `none` value; it does not reconstruct any carried value from linear
memory (the result is independent of the other globals, the memory, and the
type deserializer). -/
theorem C4_code11_payload_is_none (sigDecode : List Nat → Option Ty) (fuel : Nat)
    (st : ResolverState) (h : st.runtime_error_code = 11) :
    from_runtime_error_code sigDecode fuel st =
      .shortReturn (.expectedValue .noneV) := by
  simp [from_runtime_error_code, errorMapFrom, h]

/-- Witness for `C4_code11_payload_is_none`. -/
theorem C4_code11_payload_is_none_witness :
    from_runtime_error_code (fun _ => none) 0 ⟨11, 0, 0, 0, 0, 0, mem0⟩ =
      .shortReturn (.expectedValue .noneV) :=
  C4_code11_payload_is_none (fun _ => none) 0 ⟨11, 0, 0, 0, 0, 0, mem0⟩ rfl

/-! ## Claim C5 -/

/-- C5.  The loop emitted for `filter` is a do-while: its body runs at least
once even when the input list is empty (`input_len = 0`).  On an empty list
of 128-bit integers (element size 16) it invokes the predicate on the
garbage element sitting at the input offset (here `42`), and when the
predicate returns true it copies that element to the output — so the
predicate is invoked on a non-element and the output length is 1 where the
claim requires 0 invocations and an empty output. -/
theorem C5_filter_empty_list_bug :
    filterRun (fun _ => true) (readElemOf ([] : List Int) 16 42) 16 0 =
        ([42], [42]) ∧
      ([] : List Int).filter (fun _ => true) = [] ∧
      ([42] : List Int) ≠ [] := by
  refine ⟨by decide, by decide, by decide⟩

/-! ## Claim C6 -/

/-- C6.  Short-circuit purity of the emitted `and`/`or` chains: for every
side-effecting expression `E` (a state transformer) and state `s`,
`(and false E)` evaluates to the single boolean `false` and `(or true E)` to
`true`, with the final state exactly `s` — `E`'s side effects never happen
(the unreached arm is the effect-free `noop` block). -/
theorem C6_short_circuit_purity {S : Type} (E : S → Bool × S) (s : S) :
    wasmAnd [fun s0 => (false, s0), E] s = (false, s) ∧
      wasmOr [fun s0 => (true, s0), E] s = (true, s) := by
  constructor <;>
    simp [wasmAnd, wasmOr, traverse_short_circuiting_list, List.foldl]

/-! ## Claim C7 -/

/-- C7.  `unwrap!` on a failure variant evaluates the fallback and leaves the
enclosing function through the explicit early-exit path: the function's
result is `.ok fallback` (a normal return carrying the fallback value — not
a Wasm trap, which would be an `.error`).  In particular
`(unwrap! (err 23) 42)` inside a function returning Int makes the function
return 42, whatever the rest of its body.  A success variant pushes the
saved payload and continues with the rest of the body. -/
theorem C7_unwrap_early_return (fallback : Value) (rest : Value → Value) (v : Value) :
    unwrapInFunction (.errV (.intV 23)) (.intV 42) rest = .ok (.intV 42) ∧
      unwrapRun (.errV (.intV 23)) (.intV 42) = return_early (.intV 42) ∧
      unwrapInFunction .noneV fallback rest = .ok fallback ∧
      unwrapInFunction (.okV v) fallback rest = .ok (rest v) ∧
      unwrapInFunction (.someV v) fallback rest = .ok (rest v) :=
  ⟨rfl, rfl, rfl, rfl, rfl⟩

/-! ## Claim C8 -/

/-- C8.  The runtime argument-count check of `stx-transfer?` does raise code
13 with the expected and actual counts carried at the
`runtime-error-arg-offset/len` globals — but as two 16-byte little-endian
`UInt` literal images, while the resolver's code-13 branch parses the
carried bytes against the textual pattern `expected: (\d+) got: (\d+)` and
unwraps the captures.  On the concrete failing call (`stx-transfer?` with 2
arguments, literal pool at offset 2000) the emitted globals are
`(2000, 32)`, the carried bytes are the 32 binary bytes of `UInt 3` and
`UInt 2`, the pattern match fails, and the resolver panics instead of
reporting `IncorrectArgumentCount(3, 2)`. -/
theorem C8_arg_count_bytes_unparseable :
    stx_transfer_arity_check ⟨2000, []⟩ 2 =
        some (⟨2000, leBytes 16 3 ++ leBytes 16 2⟩, 2000, 32, 13) ∧
      parseArgCounts (leBytes 16 3 ++ leBytes 16 2) = none ∧
      from_runtime_error_code (fun _ => none) 1
          ⟨13, 0, 0, 0, 2000, 32, storeBytes mem0 2000 (leBytes 16 3 ++ leBytes 16 2)⟩ =
        .panicked ∧
      VmError.panicked ≠ .unchecked (.incorrectArgumentCount 3 2) := by
  refine ⟨rfl, rfl, rfl, fun h => VmError.noConfusion h⟩

/-! ## Claim C9 -/

/-- C9 (counterexample).  `define-constant` with a user name that an earlier
user definition already bound does not fail code generation: with `"a"`
already in the constants table (and not reserved), `DefineConstant::traverse`
succeeds, silently overwriting the binding. -/
theorem C9_counterexample :
    (define_constant_traverse ⟨fun _ => false, [], [("a", 0)]⟩ "a" 4).isOk = true := by
  rfl

/-- C9 (amended).  Reserved names fail code generation with a structured
error in both `define-data-var` and `define-constant`; a duplicate user name
fails code generation for `define-data-var`; but `define-constant` accepts
any non-reserved name, including one already bound — duplicate constants are
left to the earlier analysis stage. -/
theorem C9_name_checks (g : TLGenState) (name : String) (ty : Ty) (offset : Nat) :
    (is_reserved_name g name = true →
        define_data_var_traverse g name ty =
            .error (.internalError ("Name already used " ++ name)) ∧
          define_constant_traverse g name offset =
            .error (.internalError ("Name already used " ++ name))) ∧
      (is_reserved_name g name = false →
        (g.datavars_types.lookup name).isSome = true →
        define_data_var_traverse g name ty =
          .error (.internalError ("Data var defined twice: " ++ name))) ∧
      (is_reserved_name g name = false →
        define_constant_traverse g name offset =
          .ok { g with constants := (name, offset) :: g.constants }) := by
  refine ⟨fun hr => ?_, fun hr hd => ?_, fun hr => ?_⟩
  · exact ⟨by simp [define_data_var_traverse, hr], by simp [define_constant_traverse, hr]⟩
  · simp [define_data_var_traverse, hr, hd]
  · simp [define_constant_traverse, hr]

/-- Witness for `C9_name_checks`. -/
theorem C9_name_checks_witness :
    define_data_var_traverse ⟨fun n => n == "map", [], []⟩ "map" .intT =
        .error (.internalError ("Name already used " ++ "map")) ∧
      define_data_var_traverse ⟨fun _ => false, [("a", .intT)], []⟩ "a" .intT =
        .error (.internalError ("Data var defined twice: " ++ "a")) :=
  ⟨((C9_name_checks ⟨fun n => n == "map", [], []⟩ "map" .intT 0).1 (by decide)).1,
   (C9_name_checks ⟨fun _ => false, [("a", .intT)], []⟩ "a" .intT 0).2.1 (by decide)
     (by decide)⟩

/-! ## Claim C10 -/

/-- C10.  For Optional and Response types, when the 4-byte little-endian
variant tag at the read offset is neither 0 nor 1, `read_from_wasm` returns
the `InvalidIndicator` error carrying that tag (it constructs a value only
for tags 0 and 1, and does not panic). -/
theorem C10_invalid_indicator (fuel : Nat) (m : Mem) (offset length : Nat)
    (innerTy okTy errTy : Ty) (tag : Int)
    (h0 : fromLeI32 (loadBytes m offset 4) = tag) (h1 : tag ≠ 0) (h2 : tag ≠ 1) :
    read_from_wasm (fuel + 1) m (.optionalT innerTy) offset length =
        .error (.invalidIndicator tag) ∧
      read_from_wasm (fuel + 1) m (.responseT okTy errTy) offset length =
        .error (.invalidIndicator tag) := by
  subst h0
  constructor <;> · simp only [read_from_wasm, read_body]
                    rw [if_neg h1, if_neg h2]

/-- Witness for `C10_invalid_indicator`: tag 7. -/
theorem C10_invalid_indicator_witness :
    read_from_wasm 4 (storeBytes mem0 0 (leBytes 4 7)) (.optionalT .intT) 0 8 =
        .error (.invalidIndicator 7) ∧
      read_from_wasm 4 (storeBytes mem0 0 (leBytes 4 7)) (.responseT .intT .intT) 0 36 =
        .error (.invalidIndicator 7) :=
  C10_invalid_indicator 3 (storeBytes mem0 0 (leBytes 4 7)) 0 8 .intT .intT .intT 7
    (by decide) (by decide) (by decide)

/-- `NoType` is never NoType-free (at any fuel). -/
theorem noTypeFree_noneTy (F : Nat) : noTypeFree F .noneTy = false := by
  cases F <;> rfl

/-- The `none`/`none` arm of the optional comparison, for a non-NoType inner
type: `is-none` of both ORed with the inner comparison run on the zero
placeholder slots. -/
theorem opt_none_arm (F : Nat) (t : Ty) (h : t ≠ .noneTy) :
    wasm_equal (F + 1) (.optionalT t) (.optionalT t) .noneV .noneV =
      ((placeholderVal F t).elim (Except.error EqErr.fuelOut) Except.ok >>= fun p1 =>
       ((placeholderVal F t).elim (Except.error EqErr.fuelOut) Except.ok >>= fun p2 =>
        (wasm_equal F t t p1 p2 >>= fun r => Except.ok (true || r)))) := by
  cases t <;> first | exact absurd rfl h | rfl

/-- The `some`/`some` arm of the optional comparison, for a non-NoType inner
type: `is-none` of both (false) ORed with the inner comparison. -/
theorem opt_some_arm (F : Nat) (t : Ty) (h : t ≠ .noneTy) (a b : Value) :
    wasm_equal (F + 1) (.optionalT t) (.optionalT t) (.someV a) (.someV b) =
      (wasm_equal F t t a b >>= fun r => Except.ok (false || r)) := by
  cases t <;> first | exact absurd rfl h | rfl

/-- The pairwise short-circuit loop decides list equality, given that the
element comparison decides element equality. -/
theorem eqElems_spec (F : Nat) (elemTy : Ty)
    (hIH : ∀ v1 v2, hasType F v1 elemTy = true → hasType F v2 elemTy = true →
      ∃ r, wasm_equal F elemTy elemTy v1 v2 = .ok r ∧ (r = true ↔ v1 = v2)) :
    ∀ vs1 vs2 : List Value, vs1.length = vs2.length →
      (∀ v ∈ vs1, hasType F v elemTy = true) →
      (∀ v ∈ vs2, hasType F v elemTy = true) →
      ∃ r, eqElems (fun a b => wasm_equal F elemTy elemTy a b) vs1 vs2 = .ok r ∧
        (r = true ↔ vs1 = vs2) := by
  intro vs1
  induction vs1 with
  | nil =>
    intro vs2 hlen _ _
    cases vs2 with
    | nil => exact ⟨true, rfl, by simp⟩
    | cons b bs => simp at hlen
  | cons a as1 ih =>
    intro vs2 hlen ht1 ht2
    cases vs2 with
    | nil => simp at hlen
    | cons b bs =>
      obtain ⟨r, hr, hiff⟩ := hIH a b (ht1 a (List.mem_cons_self a as1))
        (ht2 b (List.mem_cons_self b bs))
      rw [show eqElems (fun a b => wasm_equal F elemTy elemTy a b) (a :: as1) (b :: bs) =
        (wasm_equal F elemTy elemTy a b >>= fun r =>
          if r then eqElems (fun a b => wasm_equal F elemTy elemTy a b) as1 bs
          else .ok false) from rfl, hr]
      cases r with
      | false =>
        refine ⟨false, rfl, iff_of_false (by simp) ?_⟩
        intro hc
        injection hc with hab hrest
        exact Bool.noConfusion (hiff.mpr hab)
      | true =>
        have hab : a = b := hiff.mp rfl
        obtain ⟨r2, hr2, hiff2⟩ := ih bs (by simpa using hlen)
          (fun v hv => ht1 v (List.mem_cons_of_mem a hv))
          (fun v hv => ht2 v (List.mem_cons_of_mem b hv))
        refine ⟨r2, ?_, ?_⟩
        · show eqElems (fun a b => wasm_equal F elemTy elemTy a b) as1 bs = .ok r2
          exact hr2
        · rw [hiff2, hab]
          simp

/-- The field-by-field short-circuit chain decides tuple equality, given
that each field's comparison decides equality of that field's values. -/
theorem eqFields_spec (F : Nat)
    (hIH : ∀ ty v1 v2, hasType F v1 ty = true → hasType F v2 ty = true →
      utf8Free F ty = true → noTypeFree F ty = true →
      ∃ r, wasm_equal F ty ty v1 v2 = .ok r ∧ (r = true ↔ v1 = v2)) :
    ∀ (fields : List (String × Ty)) (fs1 fs2 : List (String × Value)),
      (∀ p ∈ fields, utf8Free F p.2 = true ∧ noTypeFree F p.2 = true) →
      fs1.length = fields.length → fs2.length = fields.length →
      (∀ p ∈ fs1.zip fields, p.1.1 = p.2.1 ∧ hasType F p.1.2 p.2.2 = true) →
      (∀ p ∈ fs2.zip fields, p.1.1 = p.2.1 ∧ hasType F p.1.2 p.2.2 = true) →
      ∃ r, eqFields (fun t s a b => wasm_equal F t s a b) fields fields fs1 fs2 =
          .ok r ∧ (r = true ↔ fs1 = fs2) := by
  intro fields
  induction fields with
  | nil =>
    intro fs1 fs2 _ hl1 hl2 _ _
    cases fs1 with
    | cons a as1 => simp at hl1
    | nil =>
      cases fs2 with
      | cons b bs => simp at hl2
      | nil => exact ⟨true, rfl, by simp⟩
  | cons ft fts ih =>
    intro fs1 fs2 hft hl1 hl2 hz1 hz2
    cases fs1 with
    | nil => simp at hl1
    | cons a as1 =>
      cases fs2 with
      | nil => simp at hl2
      | cons b bs =>
        have hh1 := hz1 (a, ft) (by simp [List.zip_cons_cons])
        have hh2 := hz2 (b, ft) (by simp [List.zip_cons_cons])
        obtain ⟨r, hr, hiff⟩ := hIH ft.2 a.2 b.2 hh1.2 hh2.2
          (hft ft (List.mem_cons_self ft fts)).1 (hft ft (List.mem_cons_self ft fts)).2
        rw [show eqFields (fun t s a b => wasm_equal F t s a b)
            (ft :: fts) (ft :: fts) (a :: as1) (b :: bs) =
          (wasm_equal F ft.2 ft.2 a.2 b.2 >>= fun r =>
            if r then eqFields (fun t s a b => wasm_equal F t s a b) fts fts as1 bs
            else .ok false) from rfl, hr]
        cases r with
        | false =>
          refine ⟨false, rfl, iff_of_false (by simp) ?_⟩
          intro hc
          injection hc with hab hrest
          exact Bool.noConfusion (hiff.mpr (congrArg Prod.snd hab))
        | true =>
          have hab2 : a.2 = b.2 := hiff.mp rfl
          have hab : a = b := by
            have h1 : a.1 = b.1 := hh1.1.trans hh2.1.symm
            exact Prod.ext h1 hab2
          obtain ⟨r2, hr2, hiff2⟩ := ih as1 bs
            (fun p hp => hft p (List.mem_cons_of_mem ft hp))
            (by simpa using hl1) (by simpa using hl2)
            (fun p hp => hz1 p (by simp [List.zip_cons_cons, hp]))
            (fun p hp => hz2 p (by simp [List.zip_cons_cons, hp]))
          refine ⟨r2, ?_, ?_⟩
          · show eqFields (fun t s a b => wasm_equal F t s a b) fts fts as1 bs = .ok r2
            exact hr2
          · rw [hiff2, hab]
            simp

/-- The zero placeholder slots of a UTF-8-free, NoType-free type decode to a
value the comparison accepts as equal to itself (so the placeholder
comparison ORed into the `none`/`none` arm always evaluates to `ok true`). -/
theorem placeholder_eq_ok : ∀ (F : Nat) (ty : Ty),
    utf8Free F ty = true → noTypeFree F ty = true →
    ∃ p, placeholderVal F ty = some p ∧ wasm_equal F ty ty p p = .ok true := by
  intro F
  induction F with
  | zero => intro ty hu8; exact Bool.noConfusion hu8
  | succ F ihF =>
    intro ty hu8 hnt
    cases ty with
    | intT => exact ⟨.intV 0, rfl, rfl⟩
    | uintT => exact ⟨.uintV 0, rfl, rfl⟩
    | boolT => exact ⟨.boolV false, rfl, rfl⟩
    | buffT c =>
      refine ⟨.buffV [], rfl, ?_⟩
      rw [show wasm_equal (F + 1) (.buffT c) (.buffT c) (.buffV []) (.buffV []) =
          (if (c == c) = true then Except.ok (([] : List Nat) == [])
           else Except.ok false) from rfl, if_pos (beq_self_eq_true c)]
      rfl
    | asciiT c =>
      refine ⟨.asciiV [], rfl, ?_⟩
      rw [show wasm_equal (F + 1) (.asciiT c) (.asciiT c) (.asciiV []) (.asciiV []) =
          (if (c == c) = true then Except.ok (([] : List Nat) == [])
           else Except.ok false) from rfl, if_pos (beq_self_eq_true c)]
      rfl
    | utf8T c => exact Bool.noConfusion hu8
    | principalT => exact ⟨.buffV [], rfl, rfl⟩
    | noneTy => exact Bool.noConfusion hnt
    | listT e c => exact ⟨.listV e [], rfl, rfl⟩
    | optionalT t =>
      have hu8t : utf8Free F t = true := hu8
      have hntt : noTypeFree F t = true := hnt
      have hne : t ≠ .noneTy := by
        intro he
        subst he
        exact Bool.noConfusion ((noTypeFree_noneTy F).symm.trans hntt)
      obtain ⟨q, hq, hqe⟩ := ihF t hu8t hntt
      refine ⟨.noneV, rfl, ?_⟩
      rw [opt_none_arm F t hne, hq]
      show (wasm_equal F t t q q >>= fun r =>
        (Except.ok (true || r) : Except EqErr Bool)) = Except.ok true
      rw [hqe]
      rfl
    | responseT o e =>
      have hu8s : utf8Free F o = true ∧ utf8Free F e = true := by
        have h := hu8
        simp only [utf8Free, Bool.and_eq_true] at h
        exact h
      have hnts : noTypeFree F o = true ∧ noTypeFree F e = true := by
        have h := hnt
        simp only [noTypeFree, Bool.and_eq_true] at h
        exact h
      obtain ⟨q, hq, hqe⟩ := ihF e hu8s.2 hnts.2
      refine ⟨.errV q, ?_, ?_⟩
      · show (placeholderVal F e).bind (fun x => some (Value.errV x)) =
          some (Value.errV q)
        rw [hq]
        rfl
      · show wasm_equal F e e q q = .ok true
        exact hqe
    | tupleT fields =>
      have hu8f : ∀ p ∈ fields, utf8Free F p.2 = true := by
        have h := hu8
        simp only [utf8Free, List.all_eq_true] at h
        exact h
      have hntf : ∀ p ∈ fields, noTypeFree F p.2 = true := by
        have h := hnt
        simp only [noTypeFree, List.all_eq_true] at h
        exact h
      have key : ∀ (fl : List (String × Ty)),
          (∀ p ∈ fl, utf8Free F p.2 = true) → (∀ p ∈ fl, noTypeFree F p.2 = true) →
          ∃ fs, fl.mapM (fun kv => do
              let v ← placeholderVal F kv.2
              pure (kv.1, v)) = some fs ∧
            eqFields (fun t s a b => wasm_equal F t s a b) fl fl fs fs = .ok true := by
        intro fl
        induction fl with
        | nil => intro _ _; exact ⟨[], rfl, rfl⟩
        | cons kv r ihl =>
          intro h8 hn
          obtain ⟨q, hq, hqe⟩ := ihF kv.2 (h8 kv (List.mem_cons_self kv r))
            (hn kv (List.mem_cons_self kv r))
          obtain ⟨fsT, hmT, heT⟩ := ihl
            (fun p hp => h8 p (List.mem_cons_of_mem kv hp))
            (fun p hp => hn p (List.mem_cons_of_mem kv hp))
          refine ⟨(kv.1, q) :: fsT, ?_, ?_⟩
          · rw [List.mapM_cons]
            show ((placeholderVal F kv.2).bind (fun v => some (kv.1, v))).bind
                (fun x => ((r.mapM (fun kv => do
                  let v ← placeholderVal F kv.2
                  pure (kv.1, v)) : Option (List (String × Value)))).bind
                  (fun xs => some (x :: xs))) =
              some ((kv.1, q) :: fsT)
            rw [hq]
            show ((r.mapM (fun kv => do
                let v ← placeholderVal F kv.2
                pure (kv.1, v)) : Option (List (String × Value)))).bind
                (fun xs => some ((kv.1, q) :: xs)) =
              some ((kv.1, q) :: fsT)
            rw [hmT]
            rfl
          · rw [show eqFields (fun t s a b => wasm_equal F t s a b)
                (kv :: r) (kv :: r) ((kv.1, q) :: fsT) ((kv.1, q) :: fsT) =
              (wasm_equal F kv.2 kv.2 q q >>= fun r2 =>
                if r2 then eqFields (fun t s a b => wasm_equal F t s a b) r r fsT fsT
                else .ok false) from rfl, hqe]
            show eqFields (fun t s a b => wasm_equal F t s a b) r r fsT fsT = .ok true
            exact heT
      obtain ⟨fs, hm, he⟩ := key fields hu8f hntf
      refine ⟨.tupV fs, ?_, ?_⟩
      · show ((fields.mapM (fun kv => do
            let v ← placeholderVal F kv.2
            pure (kv.1, v)) : Option (List (String × Value)))).bind
            (fun xs => some (Value.tupV xs)) =
          some (Value.tupV fs)
        rw [hm]
        rfl
      · show eqFields (fun t s a b => wasm_equal F t s a b) fields fields fs fs =
          .ok true
        exact he


theorem loadBytes_storeBytes_len {m : Mem} {off : Nat} {bs : List Nat} {n : Nat}
    (h : bs.length = n) : loadBytes (storeBytes m off bs) off n = bs := by
  subst h; exact loadBytes_storeBytes m off bs

theorem read_from_wasm_indirect_direct {F : Nat} {m : Mem} {s : Ty} {off w : Nat}
    (hsz : get_type_size (F + 1) s = some w) (hmem : is_in_memory_type s = false) :
    read_from_wasm_indirect (F + 1) m s off =
      read_body F (read_from_wasm_indirect F) m s off w := by
  simp only [read_from_wasm_indirect]
  rw [hsz]
  simp only [Option.elim]
  rw [hmem]
  rfl

theorem read_from_wasm_indirect_inmem {F : Nat} {m : Mem} {s : Ty} {off w : Nat}
    (hsz : get_type_size (F + 1) s = some w) (hmem : is_in_memory_type s = true)
    {o2 l2 : Nat}
    (ho : loadBytes m off 4 = leBytes 4 o2)
    (hl : loadBytes m (off + 4) 4 = leBytes 4 l2)
    (hob : o2 < 2 ^ 31) (hlb : l2 < 2 ^ 31) :
    read_from_wasm_indirect (F + 1) m s off =
      read_body F (read_from_wasm_indirect F) m s o2 l2 := by
  simp only [read_from_wasm_indirect]
  rw [hsz]
  simp only [Option.elim]
  rw [hmem]
  have hio : read_indirect_offset_and_length m off = Except.ok ((o2 : Int), (l2 : Int)) := by
    simp only [read_indirect_offset_and_length, ho, hl,
      fromLeI32_leBytes_of_lt hob, fromLeI32_leBytes_of_lt hlb]
  rw [hio]
  show (if 0 ≤ (o2 : Int) ∧ 0 ≤ (l2 : Int) then
      read_body F (read_from_wasm_indirect F) m s (o2 : Int).toNat (l2 : Int).toNat
    else Except.error WErr.runtimeError) = _
  rw [if_pos ⟨Int.ofNat_nonneg o2, Int.ofNat_nonneg l2⟩]
  simp

/-- In a tuple type with distinct field names, looking a field's own name up
yields its type. -/
theorem distinctKeys_lookup_mem (l : List (String × Ty))
    (hd : distinctKeys (l.map Prod.fst) = true) :
    ∀ p ∈ l, l.lookup p.1 = some p.2 := by
  intro p hp
  obtain ⟨i, hi, hpe⟩ := List.getElem_of_mem hp
  rw [← hpe]
  exact distinctKeys_lookup l hd i hi

/-- Pairwise alignment of a well-typed tuple value's fields with its tuple
type's fields, packaged as a `Forall₂` for the fold lemma. -/
theorem align_forall2 (F : Nat) (fullFields : List (String × Ty)) :
    ∀ (fs : List (String × Value)) (fields : List (String × Ty)),
      fs.length = fields.length →
      (∀ p ∈ fs.zip fields, p.1.1 = p.2.1 ∧ hasType F p.1.2 p.2.2 = true) →
      (∀ p ∈ fields, utf8Free F p.2 = true) →
      (∀ p ∈ fields, fullFields.lookup p.1 = some p.2) →
      List.Forall₂ (fun kv kt => kv.1 = kt.1 ∧ hasType F kv.2 kt.2 = true ∧
        utf8Free F kt.2 = true ∧ fullFields.lookup kv.1 = some kt.2) fs fields := by
  intro fs
  induction fs with
  | nil =>
    intro fields hlen _ _ _
    cases fields with
    | nil => exact List.Forall₂.nil
    | cons kt fts => simp at hlen
  | cons kv fvs ih =>
    intro fields hlen hzip hu8 hlk
    cases fields with
    | nil => simp at hlen
    | cons kt fts =>
      have hhead := hzip (kv, kt) (by simp [List.zip_cons_cons])
      refine List.Forall₂.cons ⟨hhead.1, hhead.2, hu8 kt (List.mem_cons_self kt fts), ?_⟩ ?_
      · rw [hhead.1]
        exact hlk kt (List.mem_cons_self kt fts)
      · exact ih fts (by simpa using hlen)
          (fun p hp => hzip p (by simp [List.zip_cons_cons, hp]))
          (fun p hp => hu8 p (List.mem_cons_of_mem kt hp))
          (fun p hp => hlk p (List.mem_cons_of_mem kt hp))

/-- Specification of the field-writing fold of `write_to_wasm` on tuples and
of the matching field-reading fold of `read_from_wasm`: with aligned,
well-typed fields, the write lays the fields out consecutively from `off`
(representations) and `imoff` (in-memory data), touches only those two
regions, and the read fold recovers exactly the original field list from any
memory agreeing on them. -/
theorem tuple_fold_spec (F : Nat) (fullFields : List (String × Ty))
    (off imoff : Nat)
    (hIH : ∀ (ty : Ty) (v : Value) (m : Mem) (o io : Nat) (m' : Mem) (w imw : Nat),
      hasType F v ty = true → utf8Free F ty = true →
      write_to_wasm F m ty o io v true = .ok (m', w, imw) →
      get_type_size F ty = some w ∧ memSize F v = some imw ∧
      (∀ a, (a < o ∨ o + w ≤ a) → (a < io ∨ io + imw ≤ a) → m' a = m a) ∧
      (o + w ≤ io → io + imw < 2 ^ 31 → ∀ m2, agreeOn m' m2 o w →
        agreeOn m' m2 io imw → read_from_wasm_indirect F m2 ty o = .ok v)) :
    ∀ (fs : List (String × Value)) (fields : List (String × Ty)),
      List.Forall₂ (fun kv kt => kv.1 = kt.1 ∧ hasType F kv.2 kt.2 = true ∧
        utf8Free F kt.2 = true ∧ fullFields.lookup kv.1 = some kt.2) fs fields →
      ∀ (w0 imw0 : Nat) (m0 m1 : Mem) (w1 imw1 : Nat),
      fs.foldlM
        (fun (acc : Mem × Nat × Nat) kv => do
          let (mAcc, w2, imw2) := acc
          let valTy ← (fullFields.lookup kv.1).elim
            (Except.error WErr.valueTypeMismatch) Except.ok
          let (mNext, nw, nimw) ←
            write_to_wasm F mAcc valTy (off + w2) (imoff + imw2) kv.2 true
          pure (mNext, w2 + nw, imw2 + nimw))
        (m0, w0, imw0) = .ok (m1, w1, imw1) →
      ∃ ws szs, fields.mapM (fun p => get_type_size F p.2) = some ws ∧
        fs.mapM (fun kv => memSize F kv.2) = some szs ∧
        w1 = w0 + ws.sum ∧ imw1 = imw0 + szs.sum ∧
        (∀ a, (a < off + w0 ∨ off + w1 ≤ a) →
          (a < imoff + imw0 ∨ imoff + imw1 ≤ a) → m1 a = m0 a) ∧
        (off + w1 ≤ imoff → imoff + imw1 < 2 ^ 31 →
          ∀ m2, agreeOn m1 m2 (off + w0) (w1 - w0) →
            agreeOn m1 m2 (imoff + imw0) (imw1 - imw0) →
            ∀ ps0 : List (String × Value),
            fields.foldlM
              (fun (acc : List (String × Value) × Nat) kv => do
              let (ps, current) := acc
              let field_length ← (get_type_size F kv.2).elim
                (Except.error WErr.fuelOut) Except.ok
              let fv ← read_from_wasm_indirect F m2 kv.2 current
              pure (ps ++ [(kv.1, fv)], current + field_length))
              (ps0, off + w0) = .ok (ps0 ++ fs, off + w1)) := by
  intro fs fields hF2
  induction hF2 with
  | nil =>
    intro w0 imw0 m0 m1 w1 imw1 hfold
    have h : (Except.ok (m0, w0, imw0) : Except WErr (Mem × Nat × Nat)) =
        Except.ok (m1, w1, imw1) := hfold
    have h2 := Except.ok.inj h
    simp only [Prod.mk.injEq] at h2
    obtain ⟨e1, e2, e3⟩ := h2
    subst e1; subst e2; subst e3
    refine ⟨[], [], rfl, rfl, by simp, by simp, fun a _ _ => rfl, ?_⟩
    intro _ _ m2 _ _ ps0
    show (Except.ok (ps0, off + w0) : Except WErr (List (String × Value) × Nat)) =
      Except.ok (ps0 ++ [], off + w0)
    rw [List.append_nil]
  | cons hhead htail ih =>
    rename_i kv kt fvs fts
    intro w0 imw0 m0 m1 w1 imw1 hfold
    obtain ⟨hkey, hht, hu8h, hlk⟩ := hhead
    have hfold2 : ((((fullFields.lookup kv.1).elim
        (Except.error WErr.valueTypeMismatch) Except.ok : Except WErr Ty) >>=
        fun valTy =>
        (write_to_wasm F m0 valTy (off + w0) (imoff + imw0) kv.2 true >>=
          fun t => (pure (t.1, w0 + t.2.1, imw0 + t.2.2) :
            Except WErr (Mem × Nat × Nat)))) >>=
        fun s => fvs.foldlM
          (fun (acc : Mem × Nat × Nat) kv => do
          let (mAcc, w2, imw2) := acc
          let valTy ← (fullFields.lookup kv.1).elim
            (Except.error WErr.valueTypeMismatch) Except.ok
          let (mNext, nw, nimw) ←
            write_to_wasm F mAcc valTy (off + w2) (imoff + imw2) kv.2 true
          pure (mNext, w2 + nw, imw2 + nimw))
          s) = .ok (m1, w1, imw1) := hfold
    rw [hlk] at hfold2
    have hfold3 : ((write_to_wasm F m0 kt.2 (off + w0) (imoff + imw0) kv.2 true >>=
        fun t => (pure (t.1, w0 + t.2.1, imw0 + t.2.2) :
          Except WErr (Mem × Nat × Nat))) >>=
        fun s => fvs.foldlM
          (fun (acc : Mem × Nat × Nat) kv => do
          let (mAcc, w2, imw2) := acc
          let valTy ← (fullFields.lookup kv.1).elim
            (Except.error WErr.valueTypeMismatch) Except.ok
          let (mNext, nw, nimw) ←
            write_to_wasm F mAcc valTy (off + w2) (imoff + imw2) kv.2 true
          pure (mNext, w2 + nw, imw2 + nimw))
          s) = .ok (m1, w1, imw1) := hfold2
    cases hwr : write_to_wasm F m0 kt.2 (off + w0) (imoff + imw0) kv.2 true with
    | error err => rw [hwr] at hfold3; exact Except.noConfusion hfold3
    | ok t =>
      obtain ⟨mN, nw, nimw⟩ := t
      rw [hwr] at hfold3
      have hfold4 : fvs.foldlM
          (fun (acc : Mem × Nat × Nat) kv => do
          let (mAcc, w2, imw2) := acc
          let valTy ← (fullFields.lookup kv.1).elim
            (Except.error WErr.valueTypeMismatch) Except.ok
          let (mNext, nw, nimw) ←
            write_to_wasm F mAcc valTy (off + w2) (imoff + imw2) kv.2 true
          pure (mNext, w2 + nw, imw2 + nimw))
          (mN, w0 + nw, imw0 + nimw) = .ok (m1, w1, imw1) := hfold3
      obtain ⟨hsz_e, hmem_e, hframe_e, hread_e⟩ :=
        hIH kt.2 kv.2 m0 (off + w0) (imoff + imw0) mN nw nimw hht hu8h hwr
      obtain ⟨ws2, szs2, hmapT, hmapS, hw1, himw1, hframe, hread⟩ :=
        ih (w0 + nw) (imw0 + nimw) mN m1 w1 imw1 hfold4
      refine ⟨nw :: ws2, nimw :: szs2, ?_, ?_, ?_, ?_, ?_, ?_⟩
      · rw [List.mapM_cons, hsz_e, hmapT]; rfl
      · rw [List.mapM_cons, hmem_e, hmapS]; rfl
      · rw [hw1, List.sum_cons]; omega
      · rw [himw1, List.sum_cons]; omega
      · intro a ha hb
        have h1 : m1 a = mN a := hframe a (by omega) (by omega)
        have h2 : mN a = m0 a := hframe_e a (by omega) (by omega)
        exact h1.trans h2
      · intro hdisj hbound m2 hag1 hag2 ps0
        have hA : agreeOn mN m2 (off + w0) nw := by
          intro a ha1 ha2
          have hm : m1 a = mN a := hframe a (by omega) (by omega)
          rw [← hm]
          exact hag1 a (by omega) (by omega)
        have hB : agreeOn mN m2 (imoff + imw0) nimw := by
          intro a ha1 ha2
          have hm : m1 a = mN a := hframe a (by omega) (by omega)
          rw [← hm]
          exact hag2 a (by omega) (by omega)
        have hreadV := hread_e (by omega) (by omega) m2 hA hB
        show ((((get_type_size F kt.2).elim
            (Except.error WErr.fuelOut) Except.ok : Except WErr Nat) >>=
            fun field_length =>
            (read_from_wasm_indirect F m2 kt.2 (off + w0) >>=
              fun fv => (pure (ps0 ++ [(kt.1, fv)], off + w0 + field_length) :
                Except WErr (List (String × Value) × Nat)))) >>=
            fun s => fts.foldlM
              (fun (acc : List (String × Value) × Nat) kv => do
              let (ps, current) := acc
              let field_length ← (get_type_size F kv.2).elim
                (Except.error WErr.fuelOut) Except.ok
              let fv ← read_from_wasm_indirect F m2 kv.2 current
              pure (ps ++ [(kv.1, fv)], current + field_length))
              s) = .ok (ps0 ++ kv :: fvs, off + w1)
        rw [hsz_e]
        show ((read_from_wasm_indirect F m2 kt.2 (off + w0) >>=
            fun fv => (pure (ps0 ++ [(kt.1, fv)], off + w0 + nw) :
              Except WErr (List (String × Value) × Nat))) >>=
            fun s => fts.foldlM
              (fun (acc : List (String × Value) × Nat) kv => do
              let (ps, current) := acc
              let field_length ← (get_type_size F kv.2).elim
                (Except.error WErr.fuelOut) Except.ok
              let fv ← read_from_wasm_indirect F m2 kv.2 current
              pure (ps ++ [(kv.1, fv)], current + field_length))
              s) = .ok (ps0 ++ kv :: fvs, off + w1)
        rw [hreadV]
        rw [show (kt.1 : String) = kv.1 from hkey.symm]
        have hag1b : agreeOn m1 m2 (off + (w0 + nw)) (w1 - (w0 + nw)) :=
          agreeOn_mono hag1 (by omega) (by omega)
        have hag2b : agreeOn m1 m2 (imoff + (imw0 + nimw)) (imw1 - (imw0 + nimw)) :=
          agreeOn_mono hag2 (by omega) (by omega)
        have hR := hread hdisj hbound m2 hag1b hag2b (ps0 ++ [kv])
        rw [List.append_assoc, List.singleton_append,
          show off + (w0 + nw) = off + w0 + nw by omega] at hR
        exact hR

/-- Specification of the element-writing fold of `write_to_wasm` on lists:
given the roundtrip property for single elements (the fuel induction
hypothesis), the fold writes `l.length * esz` representation bytes and the
elements' in-memory data, touches only its two regions, and every element can
be read back from any memory agreeing on those regions. -/
theorem list_fold_spec (F : Nat) (elemTy : Ty) (esz n imoff : Nat)
    (hesz : get_type_size F elemTy = some esz)
    (hIH : ∀ (v : Value) (m : Mem) (off imo : Nat) (m' : Mem) (w imw : Nat),
      hasType F v elemTy = true →
      write_to_wasm F m elemTy off imo v true = .ok (m', w, imw) →
      get_type_size F elemTy = some w ∧ memSize F v = some imw ∧
      (∀ a, (a < off ∨ off + w ≤ a) → (a < imo ∨ imo + imw ≤ a) → m' a = m a) ∧
      (off + w ≤ imo → imo + imw < 2 ^ 31 → ∀ m2, agreeOn m' m2 off w →
        agreeOn m' m2 imo imw → read_from_wasm_indirect F m2 elemTy off = .ok v)) :
    ∀ (l : List Value) (w0 imw0 : Nat) (m0 m1 : Mem) (w1 imw1 : Nat),
      (∀ e ∈ l, hasType F e elemTy = true) →
      w0 + l.length * esz ≤ n * esz →
      l.foldlM
        (fun (acc : Mem × Nat × Nat) elem => do
          let (mAcc, w, imw) := acc
          let (mNext, nw, nimw) ←
            write_to_wasm F mAcc elemTy (imoff + w) (imoff + n * esz + imw) elem true
          pure (mNext, w + nw, imw + nimw))
        (m0, w0, imw0) = .ok (m1, w1, imw1) →
      ∃ szs, l.mapM (memSize F) = some szs ∧
        w1 = w0 + l.length * esz ∧
        imw1 = imw0 + szs.sum ∧
        (∀ a, (a < imoff + w0 ∨ imoff + w1 ≤ a) →
          (a < imoff + n * esz + imw0 ∨ imoff + n * esz + imw1 ≤ a) → m1 a = m0 a) ∧
        (imoff + n * esz + imw1 < 2 ^ 31 →
          ∀ m2, agreeOn m1 m2 (imoff + w0) (l.length * esz) →
            agreeOn m1 m2 (imoff + n * esz + imw0) (imw1 - imw0) →
            ∀ k, k < l.length →
              read_from_wasm_indirect F m2 elemTy (imoff + w0 + k * esz) =
                .ok (l.getD k .noneV)) := by
  intro l
  induction l with
  | nil =>
    intro w0 imw0 m0 m1 w1 imw1 hall hpos hfold
    have h : (Except.ok (m0, w0, imw0) : Except WErr (Mem × Nat × Nat)) =
        Except.ok (m1, w1, imw1) := hfold
    have h2 := Except.ok.inj h
    simp only [Prod.mk.injEq] at h2
    obtain ⟨e1, e2, e3⟩ := h2
    subst e1; subst e2; subst e3
    exact ⟨[], rfl, by simp, by simp, fun a _ _ => rfl,
      fun _ m2 _ _ k hk => absurd hk (by simp)⟩
  | cons e rest ih =>
    intro w0 imw0 m0 m1 w1 imw1 hall hpos hfold
    have hmul : (e :: rest).length * esz = rest.length * esz + esz := by
      rw [List.length_cons, Nat.succ_mul]
    have hfold2 : ((write_to_wasm F m0 elemTy (imoff + w0) (imoff + n * esz + imw0) e true >>=
        fun t => (pure (t.1, w0 + t.2.1, imw0 + t.2.2) : Except WErr (Mem × Nat × Nat))) >>=
        fun s => rest.foldlM
          (fun (acc : Mem × Nat × Nat) elem => do
          let (mAcc, w, imw) := acc
          let (mNext, nw, nimw) ←
            write_to_wasm F mAcc elemTy (imoff + w) (imoff + n * esz + imw) elem true
          pure (mNext, w + nw, imw + nimw))
          s) = .ok (m1, w1, imw1) := hfold
    cases hwr : write_to_wasm F m0 elemTy (imoff + w0) (imoff + n * esz + imw0) e true with
    | error err => rw [hwr] at hfold2; exact Except.noConfusion hfold2
    | ok t =>
      obtain ⟨mN, nw, nimw⟩ := t
      rw [hwr] at hfold2
      have hfold3 : rest.foldlM
          (fun (acc : Mem × Nat × Nat) elem => do
          let (mAcc, w, imw) := acc
          let (mNext, nw, nimw) ←
            write_to_wasm F mAcc elemTy (imoff + w) (imoff + n * esz + imw) elem true
          pure (mNext, w + nw, imw + nimw))
          (mN, w0 + nw, imw0 + nimw) = .ok (m1, w1, imw1) := hfold2
      have he := hall e (List.mem_cons_self e rest)
      obtain ⟨hsz_e, hmem_e, hframe_e, hread_e⟩ :=
        hIH e m0 (imoff + w0) (imoff + n * esz + imw0) mN nw nimw he hwr
      have hnwesz : nw = esz := Option.some.inj (hsz_e.symm.trans hesz)
      rw [hnwesz] at hfold3 hframe_e hread_e
      have hpos2 : (w0 + esz) + rest.length * esz ≤ n * esz := by
        rw [hmul] at hpos; omega
      have hall2 : ∀ x ∈ rest, hasType F x elemTy = true :=
        fun x hx => hall x (List.mem_cons_of_mem e hx)
      obtain ⟨szs, hmap, hw1, himw1, hframe, hread⟩ :=
        ih (w0 + esz) (imw0 + nimw) mN m1 w1 imw1 hall2 hpos2 hfold3
      refine ⟨nimw :: szs, ?_, ?_, ?_, ?_, ?_⟩
      · rw [List.mapM_cons, hmem_e, hmap]; rfl
      · rw [hw1, hmul]; omega
      · rw [himw1, List.sum_cons]; omega
      · intro a ha hb
        have h1 : m1 a = mN a := hframe a (by omega) (by omega)
        have h2 : mN a = m0 a := hframe_e a (by omega) (by omega)
        exact h1.trans h2
      · intro hbound m2 hag1 hag2 k hk
        have hread_e2 := hread_e (by omega) (by omega)
        cases k with
        | zero =>
          rw [show imoff + w0 + 0 * esz = imoff + w0 by simp]
          apply hread_e2
          · intro a ha1 ha2
            have hm : m1 a = mN a := hframe a (by omega) (by omega)
            rw [← hm]
            exact hag1 a (by omega) (by omega)
          · intro a ha1 ha2
            have hm : m1 a = mN a := hframe a (by omega) (by omega)
            rw [← hm]
            exact hag2 a (by omega) (by omega)
        | succ k =>
          rw [show imoff + w0 + (k + 1) * esz = imoff + (w0 + esz) + k * esz by
            rw [Nat.succ_mul]; omega]
          have hag1b : agreeOn m1 m2 (imoff + (w0 + esz)) (rest.length * esz) :=
            agreeOn_mono hag1 (by omega) (by omega)
          have hag2b : agreeOn m1 m2 (imoff + n * esz + (imw0 + nimw))
              (imw1 - (imw0 + nimw)) :=
            agreeOn_mono hag2 (by omega) (by omega)
          exact hread hbound m2 hag1b hag2b k (by simpa using hk)

set_option maxHeartbeats 1000000 in
theorem write_read_roundtrip : ∀ (F : Nat) (ty : Ty) (v : Value) (m : Mem)
    (off imoff : Nat) (m' : Mem) (w imw : Nat),
    hasType F v ty = true →
    utf8Free F ty = true →
    write_to_wasm F m ty off imoff v true = .ok (m', w, imw) →
    get_type_size F ty = some w ∧
    memSize F v = some imw ∧
    (∀ a, (a < off ∨ off + w ≤ a) → (a < imoff ∨ imoff + imw ≤ a) → m' a = m a) ∧
    (off + w ≤ imoff → imoff + imw < 2 ^ 31 →
      ∀ m2, agreeOn m' m2 off w → agreeOn m' m2 imoff imw →
        read_from_wasm_indirect F m2 ty off = .ok v) := by
  intro F
  induction F with
  | zero => intro ty v m off imoff m' w imw hty; simp [hasType] at hty
  | succ F ihF =>
    intro ty v m off imoff m' w imw hty hu8 hw
    cases ty <;> cases v <;>
      first
        | exact Except.noConfusion hw
        | exact Bool.noConfusion hty
        | skip
    case intT.intV i =>
      simp only [write_to_wasm, Except.ok.injEq, Prod.mk.injEq] at hw
      obtain ⟨hm', hww, himw⟩ := hw
      subst hm'; subst hww; subst himw
      simp only [hasType, Bool.and_eq_true, decide_eq_true_eq] at hty
      obtain ⟨hty1, hty2⟩ := hty
      refine ⟨rfl, rfl, ?_, ?_⟩
      · intro a ha _
        rw [storeBytes_eq_of_notin _ _ _ _ (by rw [leBytes_length]; omega),
          storeBytes_eq_of_notin _ _ _ _ (by rw [leBytes_length]; omega)]
      · intro hdisj hbound m2 hag1 hag2
        have hu : (i % (2 ^ 128 : Int)).toNat < 2 ^ 128 := (int_twos_roundtrip hty1 hty2).1
        set u := (i % (2 ^ 128 : Int)).toNat with hudef
        have hlow : loadBytes m2 off 8 = leBytes 8 (u % 2 ^ 64) := by
          rw [← loadBytes_congr_agree (agreeOn_mono hag1 (by omega) (by omega)),
            loadBytes_storeBytes_disj (by rw [leBytes_length]; omega),
            loadBytes_storeBytes_len (leBytes_length _ _)]
        have hhigh : loadBytes m2 (off + 8) 8 = leBytes 8 (u / 2 ^ 64) := by
          rw [← loadBytes_congr_agree (agreeOn_mono hag1 (by omega) (by omega)),
            loadBytes_storeBytes_len (leBytes_length _ _)]
        rw [read_from_wasm_indirect_direct (F := F) (s := .intT) (w := 16) rfl rfl]
        simp only [read_body, hlow, hhigh]
        rw [fromLe_leBytes_of_lt (by omega), fromLe_leBytes_of_lt (by omega)]
        rw [show u / 2 ^ 64 * 2 ^ 64 + u % 2 ^ 64 = u by omega]
        rw [hudef, (int_twos_roundtrip hty1 hty2).2]
    case uintT.uintV u =>
      simp only [write_to_wasm, Except.ok.injEq, Prod.mk.injEq] at hw
      obtain ⟨hm', hww, himw⟩ := hw
      subst hm'; subst hww; subst himw
      simp only [hasType, decide_eq_true_eq] at hty
      refine ⟨rfl, rfl, ?_, ?_⟩
      · intro a ha _
        rw [storeBytes_eq_of_notin _ _ _ _ (by rw [leBytes_length]; omega),
          storeBytes_eq_of_notin _ _ _ _ (by rw [leBytes_length]; omega)]
      · intro hdisj hbound m2 hag1 hag2
        have hlow : loadBytes m2 off 8 = leBytes 8 (u % 2 ^ 64) := by
          rw [← loadBytes_congr_agree (agreeOn_mono hag1 (by omega) (by omega)),
            loadBytes_storeBytes_disj (by rw [leBytes_length]; omega),
            loadBytes_storeBytes_len (leBytes_length _ _)]
        have hhigh : loadBytes m2 (off + 8) 8 = leBytes 8 (u / 2 ^ 64) := by
          rw [← loadBytes_congr_agree (agreeOn_mono hag1 (by omega) (by omega)),
            loadBytes_storeBytes_len (leBytes_length _ _)]
        rw [read_from_wasm_indirect_direct (F := F) (s := .uintT) (w := 16) rfl rfl]
        simp only [read_body, hlow, hhigh]
        rw [fromLe_leBytes_of_lt (by omega), fromLe_leBytes_of_lt (by omega)]
        rw [show u / 2 ^ 64 * 2 ^ 64 + u % 2 ^ 64 = u by omega]
    case boolT.boolV b =>
      simp only [write_to_wasm, Except.ok.injEq, Prod.mk.injEq] at hw
      obtain ⟨hm', hww, himw⟩ := hw
      subst hm'; subst hww; subst himw
      refine ⟨rfl, rfl, ?_, ?_⟩
      · intro a ha _
        rw [storeBytes_eq_of_notin _ _ _ _ (by rw [leBytes_length]; omega)]
      · intro hdisj hbound m2 hag1 hag2
        have hload : loadBytes m2 off 4 = leBytes 4 (if b then 1 else 0) := by
          rw [← loadBytes_congr_agree (agreeOn_mono hag1 (by omega) (by omega)),
            loadBytes_storeBytes_len (leBytes_length _ _)]
        rw [read_from_wasm_indirect_direct (F := F) (s := .boolT) (w := 4) rfl rfl]
        simp only [read_body, hload]
        cases b <;> rfl
    case buffT.buffV cap data =>
      rw [show write_to_wasm (F + 1) m (.buffT cap) off imoff (.buffV data) true =
          .ok (storeBytes
            (storeBytes (storeBytes m imoff data) off (leBytes 4 (imoff % 2 ^ 32)))
            (off + 4) (leBytes 4 (data.length % 2 ^ 32)), 8, data.length) from rfl] at hw
      simp only [Except.ok.injEq, Prod.mk.injEq] at hw
      obtain ⟨hm', hww, himw⟩ := hw
      subst hm'; subst hww; subst himw
      refine ⟨rfl, rfl, ?_, ?_⟩
      · intro a ha hb
        rw [storeBytes_eq_of_notin _ _ _ _ (by rw [leBytes_length]; omega),
          storeBytes_eq_of_notin _ _ _ _ (by rw [leBytes_length]; omega),
          storeBytes_eq_of_notin _ _ _ _ (by omega)]
      · intro hdisj hbound m2 hag1 hag2
        have him : imoff % 2 ^ 32 = imoff := Nat.mod_eq_of_lt (by omega)
        have hlen : data.length % 2 ^ 32 = data.length := Nat.mod_eq_of_lt (by omega)
        have hrepr1 : loadBytes m2 off 4 = leBytes 4 imoff := by
          rw [← loadBytes_congr_agree (agreeOn_mono hag1 (by omega) (by omega)),
            loadBytes_storeBytes_disj (by rw [leBytes_length]; omega),
            loadBytes_storeBytes_len (leBytes_length _ _), him]
        have hrepr2 : loadBytes m2 (off + 4) 4 = leBytes 4 data.length := by
          rw [← loadBytes_congr_agree (agreeOn_mono hag1 (by omega) (by omega)),
            loadBytes_storeBytes_len (leBytes_length _ _), hlen]
        have hdata : loadBytes m2 imoff data.length = data := by
          rw [← loadBytes_congr_agree (agreeOn_mono hag2 le_rfl le_rfl),
            loadBytes_storeBytes_disj (by rw [leBytes_length]; omega),
            loadBytes_storeBytes_disj (by rw [leBytes_length]; omega),
            loadBytes_storeBytes]
        rw [read_from_wasm_indirect_inmem (F := F) (s := .buffT cap) (w := 8) rfl rfl
          hrepr1 hrepr2 (by omega) (by omega)]
        simp only [read_body, hdata]
    case asciiT.asciiV cap data =>
      rw [show write_to_wasm (F + 1) m (.asciiT cap) off imoff (.asciiV data) true =
          .ok (storeBytes
            (storeBytes (storeBytes m imoff data) off (leBytes 4 (imoff % 2 ^ 32)))
            (off + 4) (leBytes 4 (data.length % 2 ^ 32)), 8, data.length) from rfl] at hw
      simp only [Except.ok.injEq, Prod.mk.injEq] at hw
      obtain ⟨hm', hww, himw⟩ := hw
      subst hm'; subst hww; subst himw
      simp only [hasType, Bool.and_eq_true] at hty
      refine ⟨rfl, rfl, ?_, ?_⟩
      · intro a ha hb
        rw [storeBytes_eq_of_notin _ _ _ _ (by rw [leBytes_length]; omega),
          storeBytes_eq_of_notin _ _ _ _ (by rw [leBytes_length]; omega),
          storeBytes_eq_of_notin _ _ _ _ (by omega)]
      · intro hdisj hbound m2 hag1 hag2
        have him : imoff % 2 ^ 32 = imoff := Nat.mod_eq_of_lt (by omega)
        have hlen : data.length % 2 ^ 32 = data.length := Nat.mod_eq_of_lt (by omega)
        have hrepr1 : loadBytes m2 off 4 = leBytes 4 imoff := by
          rw [← loadBytes_congr_agree (agreeOn_mono hag1 (by omega) (by omega)),
            loadBytes_storeBytes_disj (by rw [leBytes_length]; omega),
            loadBytes_storeBytes_len (leBytes_length _ _), him]
        have hrepr2 : loadBytes m2 (off + 4) 4 = leBytes 4 data.length := by
          rw [← loadBytes_congr_agree (agreeOn_mono hag1 (by omega) (by omega)),
            loadBytes_storeBytes_len (leBytes_length _ _), hlen]
        have hdata : loadBytes m2 imoff data.length = data := by
          rw [← loadBytes_congr_agree (agreeOn_mono hag2 le_rfl le_rfl),
            loadBytes_storeBytes_disj (by rw [leBytes_length]; omega),
            loadBytes_storeBytes_disj (by rw [leBytes_length]; omega),
            loadBytes_storeBytes]
        rw [read_from_wasm_indirect_inmem (F := F) (s := .asciiT cap) (w := 8) rfl rfl
          hrepr1 hrepr2 (by omega) (by omega)]
        simp only [read_body, hdata, string_ascii_from_bytes, hty.2, if_true]
    case optionalT.someV inner x =>
      rw [show write_to_wasm (F + 1) m (.optionalT inner) off imoff (.someV x) true =
          (write_to_wasm F (storeBytes m off (leBytes 4 1)) inner (off + 4) imoff x
            true).bind (fun r => .ok (r.1, 4 + r.2.1, r.2.2)) from rfl] at hw
      simp only [hasType] at hty
      simp only [utf8Free] at hu8
      cases hin : write_to_wasm F (storeBytes m off (leBytes 4 1)) inner (off + 4) imoff
          x true with
      | error e => rw [hin] at hw; exact Except.noConfusion hw
      | ok r =>
        obtain ⟨mIn, wIn, imwIn⟩ := r
        rw [hin] at hw
        have hw2 : Except.ok (mIn, 4 + wIn, imwIn) = Except.ok (m', w, imw) := hw
        have h3 := Except.ok.inj hw2
        simp only [Prod.mk.injEq] at h3
        obtain ⟨h4, h5, h6⟩ := h3
        subst h4; subst h5; subst h6
        obtain ⟨hszIn, hmsIn, hframeIn, hreadIn⟩ :=
          ihF inner x (storeBytes m off (leBytes 4 1)) (off + 4) imoff mIn wIn imwIn
            hty hu8 hin
        refine ⟨by simp [get_type_size, hszIn], by simp [memSize, hmsIn], ?_, ?_⟩
        · intro a ha hb
          rw [hframeIn a (by omega) (by omega),
            storeBytes_eq_of_notin _ _ _ _ (by rw [leBytes_length]; omega)]
        · intro hdisj hbound m2 hag1 hag2
          have hind : loadBytes m2 off 4 = leBytes 4 1 := by
            rw [← loadBytes_congr_agree (agreeOn_mono hag1 (by omega) (by omega)),
              loadBytes_congr (fun a ha1 ha2 => hframeIn a (by omega) (by omega)),
              loadBytes_storeBytes_len (leBytes_length _ _)]
          rw [read_from_wasm_indirect_direct (F := F) (s := .optionalT inner)
            (w := 4 + wIn) (by simp [get_type_size, hszIn]) rfl]
          simp only [read_body, hind]
          rw [fromLeI32_leBytes_of_lt (by norm_num), Nat.cast_one]
          rw [if_neg (by norm_num), if_pos rfl]
          rw [hreadIn (by omega) (by omega) m2
            (agreeOn_mono hag1 (by omega) (by omega)) hag2]
          rfl
    case optionalT.noneV inner =>
      simp only [hasType, Option.isSome_iff_exists] at hty
      obtain ⟨sk, hsk⟩ := hty
      rw [show write_to_wasm (F + 1) m (.optionalT inner) off imoff .noneV true =
          ((get_type_size F inner).elim (Except.error WErr.fuelOut) Except.ok).bind
            (fun skip => .ok (storeBytes m off (leBytes 4 0), 4 + skip, 0)) from rfl,
        hsk] at hw
      have hw2 : Except.ok (storeBytes m off (leBytes 4 0), 4 + sk, 0) =
          Except.ok (m', w, imw) := hw
      have h3 := Except.ok.inj hw2
      simp only [Prod.mk.injEq] at h3
      obtain ⟨h4, h5, h6⟩ := h3
      subst h4; subst h5; subst h6
      refine ⟨by simp [get_type_size, hsk], by simp [memSize], ?_, ?_⟩
      · intro a ha _
        rw [storeBytes_eq_of_notin _ _ _ _ (by rw [leBytes_length]; omega)]
      · intro hdisj hbound m2 hag1 hag2
        have hind : loadBytes m2 off 4 = leBytes 4 0 := by
          rw [← loadBytes_congr_agree (agreeOn_mono hag1 (by omega) (by omega)),
            loadBytes_storeBytes_len (leBytes_length _ _)]
        rw [read_from_wasm_indirect_direct (F := F) (s := .optionalT inner)
          (w := 4 + sk) (by simp [get_type_size, hsk]) rfl]
        simp only [read_body, hind]
        rw [fromLeI32_leBytes_of_lt (by norm_num), Nat.cast_zero]
        rw [if_pos rfl]
    case responseT.okV okTy errTy x =>
      simp only [hasType, Bool.and_eq_true, Option.isSome_iff_exists] at hty
      obtain ⟨htyx, sk, hsk⟩ := hty
      simp only [utf8Free, Bool.and_eq_true] at hu8
      rw [show write_to_wasm (F + 1) m (.responseT okTy errTy) off imoff (.okV x) true =
          (write_to_wasm F (storeBytes m off (leBytes 4 1)) okTy (off + 4) imoff x
            true).bind (fun r =>
              ((get_type_size F errTy).elim (Except.error WErr.fuelOut) Except.ok).bind
                (fun skip => .ok (r.1, 4 + r.2.1 + skip, r.2.2))) from rfl, hsk] at hw
      cases hin : write_to_wasm F (storeBytes m off (leBytes 4 1)) okTy (off + 4) imoff
          x true with
      | error e => rw [hin] at hw; exact Except.noConfusion hw
      | ok r =>
        obtain ⟨mIn, wIn, imwIn⟩ := r
        rw [hin] at hw
        have hw2 : Except.ok (mIn, 4 + wIn + sk, imwIn) = Except.ok (m', w, imw) := hw
        have h3 := Except.ok.inj hw2
        simp only [Prod.mk.injEq] at h3
        obtain ⟨h4, h5, h6⟩ := h3
        subst h4; subst h5; subst h6
        obtain ⟨hszIn, hmsIn, hframeIn, hreadIn⟩ :=
          ihF okTy x (storeBytes m off (leBytes 4 1)) (off + 4) imoff mIn wIn imwIn
            htyx hu8.1 hin
        refine ⟨by simp [get_type_size, hszIn, hsk], by simp [memSize, hmsIn],
          ?_, ?_⟩
        · intro a ha hb
          rw [hframeIn a (by omega) (by omega),
            storeBytes_eq_of_notin _ _ _ _ (by rw [leBytes_length]; omega)]
        · intro hdisj hbound m2 hag1 hag2
          have hind : loadBytes m2 off 4 = leBytes 4 1 := by
            rw [← loadBytes_congr_agree (agreeOn_mono hag1 (by omega) (by omega)),
              loadBytes_congr (fun a ha1 ha2 => hframeIn a (by omega) (by omega)),
              loadBytes_storeBytes_len (leBytes_length _ _)]
          rw [read_from_wasm_indirect_direct (F := F) (s := .responseT okTy errTy)
            (w := 4 + wIn + sk) (by simp [get_type_size, hszIn, hsk]) rfl]
          simp only [read_body, hind]
          rw [fromLeI32_leBytes_of_lt (by norm_num), Nat.cast_one]
          rw [if_neg (by norm_num), if_pos rfl]
          rw [hreadIn (by omega) (by omega) m2
            (agreeOn_mono hag1 (by omega) (by omega)) hag2]
          rfl
    case responseT.errV okTy errTy x =>
      simp only [hasType, Bool.and_eq_true, Option.isSome_iff_exists] at hty
      obtain ⟨⟨sk, hsk⟩, htyx⟩ := hty
      simp only [utf8Free, Bool.and_eq_true] at hu8
      rw [show write_to_wasm (F + 1) m (.responseT okTy errTy) off imoff (.errV x) true =
          ((get_type_size F okTy).elim (Except.error WErr.fuelOut) Except.ok).bind
            (fun skip =>
              (write_to_wasm F (storeBytes m off (leBytes 4 0)) errTy (off + 4 + skip)
                imoff x true).bind
                (fun r => .ok (r.1, 4 + skip + r.2.1, r.2.2))) from rfl, hsk] at hw
      have hw1 : (write_to_wasm F (storeBytes m off (leBytes 4 0)) errTy (off + 4 + sk)
          imoff x true).bind
            (fun r => Except.ok (r.1, 4 + sk + r.2.1, r.2.2)) =
          Except.ok (m', w, imw) := hw
      cases hin : write_to_wasm F (storeBytes m off (leBytes 4 0)) errTy (off + 4 + sk)
          imoff x true with
      | error e => rw [hin] at hw1; exact Except.noConfusion hw1
      | ok r =>
        obtain ⟨mIn, wIn, imwIn⟩ := r
        rw [hin] at hw1
        have hw2 : Except.ok (mIn, 4 + sk + wIn, imwIn) = Except.ok (m', w, imw) := hw1
        have h3 := Except.ok.inj hw2
        simp only [Prod.mk.injEq] at h3
        obtain ⟨h4, h5, h6⟩ := h3
        subst h4; subst h5; subst h6
        obtain ⟨hszIn, hmsIn, hframeIn, hreadIn⟩ :=
          ihF errTy x (storeBytes m off (leBytes 4 0)) (off + 4 + sk) imoff mIn wIn
            imwIn htyx hu8.2 hin
        refine ⟨by simp [get_type_size, hszIn, hsk], by simp [memSize, hmsIn],
          ?_, ?_⟩
        · intro a ha hb
          rw [hframeIn a (by omega) (by omega),
            storeBytes_eq_of_notin _ _ _ _ (by rw [leBytes_length]; omega)]
        · intro hdisj hbound m2 hag1 hag2
          have hind : loadBytes m2 off 4 = leBytes 4 0 := by
            rw [← loadBytes_congr_agree (agreeOn_mono hag1 (by omega) (by omega)),
              loadBytes_congr (fun a ha1 ha2 => hframeIn a (by omega) (by omega)),
              loadBytes_storeBytes_len (leBytes_length _ _)]
          rw [read_from_wasm_indirect_direct (F := F) (s := .responseT okTy errTy)
            (w := 4 + sk + wIn) (by simp [get_type_size, hszIn, hsk]) rfl]
          simp only [read_body, hind]
          rw [fromLeI32_leBytes_of_lt (by norm_num), Nat.cast_zero]
          rw [if_pos rfl, hsk]
          show (read_from_wasm_indirect F m2 errTy (off + 4 + sk)).bind
              (fun ev => Except.ok (Value.errV ev)) = Except.ok (Value.errV x)
          rw [hreadIn (by omega) (by omega) m2
            (agreeOn_mono hag1 (by omega) (by omega)) hag2]
          rfl
    case principalT.principalV version hash name =>
      simp only [hasType, Bool.and_eq_true, beq_iff_eq, decide_eq_true_eq,
        Bool.or_eq_true, List.all_eq_true] at hty
      obtain ⟨⟨⟨hver, h20⟩, hhash⟩, hnm⟩ := hty
      cases name with
      | nil =>
        rw [show write_to_wasm (F + 1) m .principalT off imoff
            (.principalV version hash []) true =
            .ok (storeBytes (storeBytes
              (storeBytes (storeBytes (storeBytes m imoff [version]) (imoff + 1) hash)
                (imoff + (1 + hash.length)) [0])
              off (leBytes 4 (imoff % 2 ^ 32)))
              (off + 4) (leBytes 4 ((1 + hash.length + 1) % 2 ^ 32)),
              8, 1 + hash.length + 1) from rfl] at hw
        have h3 := Except.ok.inj hw
        simp only [Prod.mk.injEq] at h3
        obtain ⟨h4, h5, h6⟩ := h3
        subst h4; subst h5; subst h6
        refine ⟨rfl, rfl, ?_, ?_⟩
        · intro a ha hb
          rw [storeBytes_eq_of_notin _ _ _ _ (by first | omega | (simp only [List.length_singleton, List.length_nil, leBytes_length]; omega)),
            storeBytes_eq_of_notin _ _ _ _ (by first | omega | (simp only [List.length_singleton, List.length_nil, leBytes_length]; omega)),
            storeBytes_eq_of_notin _ _ _ _ (by first | omega | (simp only [List.length_singleton, List.length_nil, leBytes_length]; omega)),
            storeBytes_eq_of_notin _ _ _ _ (by omega),
            storeBytes_eq_of_notin _ _ _ _ (by first | omega | (simp only [List.length_singleton, List.length_nil, leBytes_length]; omega))]
        · intro hdisj hbound m2 hag1 hag2
          have him : imoff % 2 ^ 32 = imoff := Nat.mod_eq_of_lt (by omega)
          have hlen : (1 + hash.length + 1) % 2 ^ 32 = 1 + hash.length + 1 :=
            Nat.mod_eq_of_lt (by omega)
          have hrepr1 : loadBytes m2 off 4 = leBytes 4 imoff := by
            rw [← loadBytes_congr_agree (agreeOn_mono hag1 (by omega) (by omega)),
              loadBytes_storeBytes_disj (by first | omega | (simp only [List.length_singleton, List.length_nil, leBytes_length]; omega)),
              loadBytes_storeBytes_len (leBytes_length _ _), him]
          have hrepr2 : loadBytes m2 (off + 4) 4 = leBytes 4 (1 + hash.length + 1) := by
            rw [← loadBytes_congr_agree (agreeOn_mono hag1 (by omega) (by omega)),
              loadBytes_storeBytes_len (leBytes_length _ _), hlen]
          rw [show (1 + hash.length + 1 : Nat) = 22 by omega] at hrepr2
          rw [read_from_wasm_indirect_inmem (F := F) (s := .principalT) (w := 8)
            rfl rfl hrepr1 hrepr2 (by omega) (by omega)]
          have hver2 : m2 imoff = version := by
            rw [← hag2 imoff (by omega) (by omega),
              storeBytes_eq_of_notin _ _ _ _ (by first | omega | (simp only [List.length_singleton, List.length_nil, leBytes_length]; omega)),
              storeBytes_eq_of_notin _ _ _ _ (by first | omega | (simp only [List.length_singleton, List.length_nil, leBytes_length]; omega)),
              storeBytes_eq_of_notin _ _ _ _ (by first | omega | (simp only [List.length_singleton, List.length_nil, leBytes_length]; omega)),
              storeBytes_eq_of_notin _ _ _ _ (by omega),
              storeBytes_at (le_refl imoff) (by simp)]
            simp
          have hhash2 : loadBytes m2 (imoff + 1) 20 = hash := by
            rw [← loadBytes_congr_agree (agreeOn_mono hag2 (by omega) (by omega)),
              loadBytes_storeBytes_disj (by first | omega | (simp only [List.length_singleton, List.length_nil, leBytes_length]; omega)),
              loadBytes_storeBytes_disj (by first | omega | (simp only [List.length_singleton, List.length_nil, leBytes_length]; omega)),
              loadBytes_storeBytes_disj (by first | omega | (simp only [List.length_singleton, List.length_nil, leBytes_length]; omega)),
              show (20 : Nat) = hash.length by omega,
              loadBytes_storeBytes]
          have hclen : m2 (imoff + 21) = 0 := by
            rw [← hag2 (imoff + 21) (by omega) (by omega),
              storeBytes_eq_of_notin _ _ _ _ (by first | omega | (simp only [List.length_singleton, List.length_nil, leBytes_length]; omega)),
              storeBytes_eq_of_notin _ _ _ _ (by first | omega | (simp only [List.length_singleton, List.length_nil, leBytes_length]; omega)),
              storeBytes_at (by omega) (by first | omega | (simp only [List.length_singleton, List.length_nil, leBytes_length]; omega))]
            simp
          simp only [read_body, hver2, hhash2, hclen, Nat.mod_eq_of_lt hver]
          simp
      | cons b bs =>
        have hnm2 := hnm.resolve_left (by simp)
        simp only [Bool.and_eq_true, decide_eq_true_eq, List.all_eq_true] at hnm2
        obtain ⟨⟨hnl, hnh⟩, hnall⟩ := hnm2
        rw [show write_to_wasm (F + 1) m .principalT off imoff
            (.principalV version hash (b :: bs)) true =
            .ok (storeBytes (storeBytes
              (storeBytes
                (storeBytes
                  (storeBytes (storeBytes m imoff [version]) (imoff + 1) hash)
                  (imoff + (1 + hash.length)) [(b :: bs).length % 256])
                (imoff + (1 + hash.length) + 1) (b :: bs))
              off (leBytes 4 (imoff % 2 ^ 32)))
              (off + 4) (leBytes 4 ((1 + hash.length + 1 + (b :: bs).length) % 2 ^ 32)),
              8, 1 + hash.length + 1 + (b :: bs).length) from rfl] at hw
        have h3 := Except.ok.inj hw
        simp only [Prod.mk.injEq] at h3
        obtain ⟨h4, h5, h6⟩ := h3
        subst h4; subst h5; subst h6
        refine ⟨rfl, rfl, ?_, ?_⟩
        · intro a ha hb
          rw [storeBytes_eq_of_notin _ _ _ _ (by first | omega | (simp only [List.length_singleton, List.length_nil, leBytes_length]; omega)),
            storeBytes_eq_of_notin _ _ _ _ (by first | omega | (simp only [List.length_singleton, List.length_nil, leBytes_length]; omega)),
            storeBytes_eq_of_notin _ _ _ _ (by first | omega | (simp only [List.length_singleton, List.length_nil, leBytes_length]; omega)),
            storeBytes_eq_of_notin _ _ _ _ (by first | omega | (simp only [List.length_singleton, List.length_nil, leBytes_length]; omega)),
            storeBytes_eq_of_notin _ _ _ _ (by omega),
            storeBytes_eq_of_notin _ _ _ _ (by first | omega | (simp only [List.length_singleton, List.length_nil, leBytes_length]; omega))]
        · intro hdisj hbound m2 hag1 hag2
          have hlb : (b :: bs).length ≤ 128 := hnh
          have him : imoff % 2 ^ 32 = imoff := Nat.mod_eq_of_lt (by omega)
          have hlen : (1 + hash.length + 1 + (b :: bs).length) % 2 ^ 32 =
              1 + hash.length + 1 + (b :: bs).length := Nat.mod_eq_of_lt (by omega)
          have hrepr1 : loadBytes m2 off 4 = leBytes 4 imoff := by
            rw [← loadBytes_congr_agree (agreeOn_mono hag1 (by omega) (by omega)),
              loadBytes_storeBytes_disj (by first | omega | (simp only [List.length_singleton, List.length_nil, leBytes_length]; omega)),
              loadBytes_storeBytes_len (leBytes_length _ _), him]
          have hrepr2 : loadBytes m2 (off + 4) 4 =
              leBytes 4 (22 + (b :: bs).length) := by
            rw [← loadBytes_congr_agree (agreeOn_mono hag1 (by omega) (by omega)),
              loadBytes_storeBytes_len (leBytes_length _ _), hlen,
              show (1 + hash.length + 1 + (b :: bs).length : Nat) =
                22 + (b :: bs).length by omega]
          rw [read_from_wasm_indirect_inmem (F := F) (s := .principalT) (w := 8)
            rfl rfl hrepr1 hrepr2 (by omega) (by omega)]
          have hver2 : m2 imoff = version := by
            rw [← hag2 imoff (by omega) (by omega),
              storeBytes_eq_of_notin _ _ _ _ (by first | omega | (simp only [List.length_singleton, List.length_nil, leBytes_length]; omega)),
              storeBytes_eq_of_notin _ _ _ _ (by first | omega | (simp only [List.length_singleton, List.length_nil, leBytes_length]; omega)),
              storeBytes_eq_of_notin _ _ _ _ (by first | omega | (simp only [List.length_singleton, List.length_nil, leBytes_length]; omega)),
              storeBytes_eq_of_notin _ _ _ _ (by first | omega | (simp only [List.length_singleton, List.length_nil, leBytes_length]; omega)),
              storeBytes_eq_of_notin _ _ _ _ (by omega),
              storeBytes_at (le_refl imoff) (by simp)]
            simp
          have hhash2 : loadBytes m2 (imoff + 1) 20 = hash := by
            rw [← loadBytes_congr_agree (agreeOn_mono hag2 (by omega) (by omega)),
              loadBytes_storeBytes_disj (by first | omega | (simp only [List.length_singleton, List.length_nil, leBytes_length]; omega)),
              loadBytes_storeBytes_disj (by first | omega | (simp only [List.length_singleton, List.length_nil, leBytes_length]; omega)),
              loadBytes_storeBytes_disj (by first | omega | (simp only [List.length_singleton, List.length_nil, leBytes_length]; omega)),
              loadBytes_storeBytes_disj (by first | omega | (simp only [List.length_singleton, List.length_nil, leBytes_length]; omega)),
              show (20 : Nat) = hash.length by omega,
              loadBytes_storeBytes]
          have hclen : m2 (imoff + 21) = (b :: bs).length % 256 := by
            rw [← hag2 (imoff + 21) (by omega) (by omega),
              storeBytes_eq_of_notin _ _ _ _ (by first | omega | (simp only [List.length_singleton, List.length_nil, leBytes_length]; omega)),
              storeBytes_eq_of_notin _ _ _ _ (by first | omega | (simp only [List.length_singleton, List.length_nil, leBytes_length]; omega)),
              storeBytes_eq_of_notin _ _ _ _ (by first | omega | (simp only [List.length_singleton, List.length_nil, leBytes_length]; omega)),
              storeBytes_at (by omega) (by first | omega | (simp only [List.length_singleton, List.length_nil, leBytes_length]; omega))]
            rw [show imoff + 21 - (imoff + (1 + hash.length)) = 0 by omega]
            rfl
          have hname2 : loadBytes m2 (imoff + 22) (b :: bs).length = b :: bs := by
            rw [← loadBytes_congr_agree (agreeOn_mono hag2 (by omega) (by omega)),
              loadBytes_storeBytes_disj (by first | omega | (simp only [List.length_singleton, List.length_nil, leBytes_length]; omega)),
              loadBytes_storeBytes_disj (by first | omega | (simp only [List.length_singleton, List.length_nil, leBytes_length]; omega)),
              show imoff + 22 = imoff + (1 + hash.length) + 1 by omega,
              loadBytes_storeBytes]
          have hmod : (b :: bs).length % 256 = (b :: bs).length :=
            Nat.mod_eq_of_lt (by omega)
          simp only [read_body, hver2, hhash2, hclen, hmod]
          rw [if_neg (by simp), hname2]
          have hctf : contract_name_try_from (b :: bs) = .ok (b :: bs) := by
            unfold contract_name_try_from
            rw [if_pos ⟨hnl, hnh, by simpa using hnall⟩]
          rw [hctf]
          show Except.ok (Value.principalV (version % 256) hash (b :: bs)) = _
          rw [Nat.mod_eq_of_lt hver]
    case listT.listV elemTy cap valEty vs =>
      simp only [hasType, Bool.and_eq_true, decide_eq_true_eq, List.all_eq_true] at hty
      obtain ⟨⟨⟨htEq, hcap⟩, hszSome⟩, hall⟩ := hty
      have hve : elemTy = valEty := (tyEqB_eq (F + 1) valEty elemTy htEq).symm
      subst hve
      obtain ⟨esz, hesz⟩ := Option.isSome_iff_exists.mp hszSome
      have hu8e : utf8Free F elemTy = true := hu8
      have hw1 : (((get_type_size F elemTy).elim (Except.error WErr.fuelOut) Except.ok :
          Except WErr Nat) >>= fun elemSizeOwn =>
          (vs.foldlM
            (fun (acc : Mem × Nat × Nat) elem => do
              let (mAcc, w2, imw2) := acc
              let (mNext, nw, nimw) ←
                write_to_wasm F mAcc elemTy (imoff + w2)
                  (imoff + vs.length * elemSizeOwn + imw2) elem true
              pure (mNext, w2 + nw, imw2 + nimw))
            (m, 0, 0) : Except WErr (Mem × Nat × Nat)) >>= fun trip =>
          pure (storeBytes (storeBytes trip.1 off (leBytes 4 (imoff % 2 ^ 32)))
              (off + 4) (leBytes 4 (trip.2.1 % 2 ^ 32)), 8, trip.2.1 + trip.2.2)) =
          .ok (m', w, imw) := hw
      rw [hesz] at hw1
      have hw2 : ((vs.foldlM
          (fun (acc : Mem × Nat × Nat) elem => do
            let (mAcc, w2, imw2) := acc
            let (mNext, nw, nimw) ←
              write_to_wasm F mAcc elemTy (imoff + w2)
                (imoff + vs.length * esz + imw2) elem true
            pure (mNext, w2 + nw, imw2 + nimw))
          (m, 0, 0) : Except WErr (Mem × Nat × Nat)) >>= fun trip =>
          pure (storeBytes (storeBytes trip.1 off (leBytes 4 (imoff % 2 ^ 32)))
              (off + 4) (leBytes 4 (trip.2.1 % 2 ^ 32)), 8, trip.2.1 + trip.2.2)) =
          .ok (m', w, imw) := hw1
      cases hfold : vs.foldlM
          (fun (acc : Mem × Nat × Nat) elem => do
            let (mAcc, w2, imw2) := acc
            let (mNext, nw, nimw) ←
              write_to_wasm F mAcc elemTy (imoff + w2)
                (imoff + vs.length * esz + imw2) elem true
            pure (mNext, w2 + nw, imw2 + nimw))
          (m, 0, 0) with
      | error err => rw [hfold] at hw2; exact Except.noConfusion hw2
      | ok trip =>
        obtain ⟨m1, vw, vimw⟩ := trip
        rw [hfold] at hw2
        have hw3 : Except.ok (storeBytes (storeBytes m1 off (leBytes 4 (imoff % 2 ^ 32)))
            (off + 4) (leBytes 4 (vw % 2 ^ 32)), 8, vw + vimw) =
            Except.ok (m', w, imw) := hw2
        have h3 := Except.ok.inj hw3
        simp only [Prod.mk.injEq] at h3
        obtain ⟨h4, h5, h6⟩ := h3
        subst h4; subst h5; subst h6
        obtain ⟨szs, hmap, hvw, hvimw, hframeK, hreadK⟩ :=
          list_fold_spec F elemTy esz vs.length imoff hesz
            (fun v mm o io mm2 ww iw hv hwv => ihF elemTy v mm o io mm2 ww iw hv hu8e hwv)
            vs 0 0 m m1 vw vimw hall (by omega) hfold
        refine ⟨rfl, ?_, ?_, ?_⟩
        · show (get_type_size F elemTy).bind (fun esz2 =>
              (vs.mapM (memSize F)).bind (fun inner =>
                some (vs.length * esz2 + inner.sum))) = some (vw + vimw)
          rw [hesz]
          show (vs.mapM (memSize F)).bind (fun inner =>
              some (vs.length * esz + inner.sum)) = some (vw + vimw)
          rw [hmap]
          show some (vs.length * esz + szs.sum) = some (vw + vimw)
          exact congrArg some (by omega)
        · intro a ha hb
          rw [storeBytes_eq_of_notin _ _ _ _
              (by first | omega | (simp only [leBytes_length]; omega)),
            storeBytes_eq_of_notin _ _ _ _
              (by first | omega | (simp only [leBytes_length]; omega))]
          exact hframeK a (by omega) (by omega)
        · intro hdisj hbound m2 hag1 hag2
          have him : imoff % 2 ^ 32 = imoff := Nat.mod_eq_of_lt (by omega)
          have hvwm : vw % 2 ^ 32 = vw := Nat.mod_eq_of_lt (by omega)
          have hrepr1 : loadBytes m2 off 4 = leBytes 4 imoff := by
            rw [← loadBytes_congr_agree (agreeOn_mono hag1 (by omega) (by omega)),
              loadBytes_storeBytes_disj
                (by first | omega | (simp only [leBytes_length]; omega)),
              loadBytes_storeBytes_len (leBytes_length _ _), him]
          have hrepr2 : loadBytes m2 (off + 4) 4 = leBytes 4 vw := by
            rw [← loadBytes_congr_agree (agreeOn_mono hag1 (by omega) (by omega)),
              loadBytes_storeBytes_len (leBytes_length _ _), hvwm]
          rw [read_from_wasm_indirect_inmem (F := F) (s := .listT elemTy cap) (w := 8)
            rfl rfl hrepr1 hrepr2 (by omega) (by omega)]
          have hesz1 : vs = [] ∨ 1 ≤ esz := by
            cases vs with
            | nil => exact Or.inl rfl
            | cons hd tl =>
              exact Or.inr (hasType_size_pos F hd elemTy esz
                (hall hd (List.mem_cons_self hd tl)) hesz)
          have hcount : (vw + esz - 1) / esz = vs.length := by
            rcases hesz1 with h | h
            · subst h
              simp only [List.length_nil] at hvw ⊢
              rw [hvw]
              cases esz with
              | zero => rfl
              | succ e2 => exact Nat.div_eq_of_lt (by omega)
            · rw [hvw]
              rw [show 0 + vs.length * esz + esz - 1 = esz * vs.length + (esz - 1) by
                rw [Nat.mul_comm vs.length esz]; omega]
              rw [Nat.mul_add_div (by omega), Nat.div_eq_of_lt (by omega)]
              omega
          have hagA : agreeOn m1 m2 (imoff + 0) (vs.length * esz) := by
            intro a ha1 ha2
            have hma : storeBytes (storeBytes m1 off (leBytes 4 (imoff % 2 ^ 32)))
                (off + 4) (leBytes 4 (vw % 2 ^ 32)) a = m1 a := by
              rw [storeBytes_eq_of_notin _ _ _ _
                  (by first | omega | (simp only [leBytes_length]; omega)),
                storeBytes_eq_of_notin _ _ _ _
                  (by first | omega | (simp only [leBytes_length]; omega))]
            rw [← hma]
            exact hag2 a (by omega) (by omega)
          have hagB : agreeOn m1 m2 (imoff + vs.length * esz + 0) (vimw - 0) := by
            intro a ha1 ha2
            have hma : storeBytes (storeBytes m1 off (leBytes 4 (imoff % 2 ^ 32)))
                (off + 4) (leBytes 4 (vw % 2 ^ 32)) a = m1 a := by
              rw [storeBytes_eq_of_notin _ _ _ _
                  (by first | omega | (simp only [leBytes_length]; omega)),
                storeBytes_eq_of_notin _ _ _ _
                  (by first | omega | (simp only [leBytes_length]; omega))]
            rw [← hma]
            exact hag2 a (by omega) (by omega)
          have hkread : ∀ k, k < vs.length →
              read_from_wasm_indirect F m2 elemTy (imoff + k * esz) =
                .ok (vs.getD k .noneV) := by
            intro k hk
            have hr := hreadK (by omega) m2 hagA hagB k hk
            rw [show imoff + k * esz = imoff + 0 + k * esz by omega]
            exact hr
          simp only [read_body]
          rw [hesz]
          show ((List.range ((vw + esz - 1) / esz)).mapM
              (fun k => read_from_wasm_indirect F m2 elemTy (imoff + k * esz)) >>=
              fun elems => (Except.ok (Value.listV elemTy elems) : Except WErr Value)) =
              Except.ok (Value.listV elemTy vs)
          rw [hcount, range_mapM_ok
            (fun k => read_from_wasm_indirect F m2 elemTy (imoff + k * esz))
            (fun k => vs.getD k .noneV) vs.length hkread]
          show Except.ok (Value.listV elemTy ((List.range vs.length).map
              (fun k => vs.getD k .noneV))) = Except.ok (Value.listV elemTy vs)
          rw [range_map_getD]
    case tupleT.tupV fields fs =>
      simp only [hasType, Bool.and_eq_true, beq_iff_eq, Bool.not_eq_true',
        List.all_eq_true, decide_eq_true_eq] at hty
      obtain ⟨⟨⟨hlen, hne⟩, hdk⟩, hzip⟩ := hty
      have hu8f : ∀ p ∈ fields, utf8Free F p.2 = true := by
        have h := hu8
        simp only [utf8Free, List.all_eq_true] at h
        exact h
      have hlkm := distinctKeys_lookup_mem fields hdk
      have hF2 := align_forall2 F fields fs fields hlen hzip hu8f hlkm
      have hfold : fs.foldlM
          (fun (acc : Mem × Nat × Nat) kv => do
            let (mAcc, w2, imw2) := acc
            let valTy ← (fields.lookup kv.1).elim
              (Except.error WErr.valueTypeMismatch) Except.ok
            let (mNext, nw, nimw) ←
              write_to_wasm F mAcc valTy (off + w2) (imoff + imw2) kv.2 true
            pure (mNext, w2 + nw, imw2 + nimw))
          (m, 0, 0) = .ok (m', w, imw) := hw
      obtain ⟨ws, szs, hmapT, hmapS, hw1, himw1, hframeK, hreadK⟩ :=
        tuple_fold_spec F fields off imoff ihF fs fields hF2 0 0 m m' w imw hfold
      have hszTup : get_type_size (F + 1) (.tupleT fields) = some w := by
        rw [get_type_size_tuple F fields, hmapT]
        show some ws.sum = some w
        exact congrArg some (by omega)
      refine ⟨hszTup, ?_, ?_, ?_⟩
      · show (fs.mapM (fun kv => memSize F kv.2)).bind (fun inner => some inner.sum) =
            some imw
        rw [hmapS]
        show some szs.sum = some imw
        exact congrArg some (by omega)
      · intro a ha hb
        exact hframeK a (by omega) (by omega)
      · intro hdisj hbound m2 hag1 hag2
        rw [read_from_wasm_indirect_direct (F := F) (s := .tupleT fields) (w := w)
          hszTup rfl]
        have hag1b : agreeOn m' m2 (off + 0) (w - 0) :=
          agreeOn_mono hag1 (by omega) (by omega)
        have hag2b : agreeOn m' m2 (imoff + 0) (imw - 0) :=
          agreeOn_mono hag2 (by omega) (by omega)
        have hR := hreadK (by omega) (by omega) m2 hag1b hag2b []
        rw [List.nil_append, Nat.add_zero] at hR
        show (fields.foldlM
            (fun (acc : List (String × Value) × Nat) kv => do
              let (ps, current) := acc
              let field_length ← (get_type_size F kv.2).elim
                (Except.error WErr.fuelOut) Except.ok
              let fv ← read_from_wasm_indirect F m2 kv.2 current
              pure (ps ++ [(kv.1, fv)], current + field_length))
            ([], off) >>= fun data =>
            (Except.ok (Value.tupV data.1) : Except WErr Value)) =
            Except.ok (Value.tupV fs)
        rw [hR]
        rfl

/-- The emitted `is-eq` comparison decides structural equality: on any two
well-typed values of a common UTF-8-free, NoType-free type it succeeds and
returns `true` exactly for equal values. -/
theorem wasm_equal_spec : ∀ (F : Nat) (ty : Ty) (v1 v2 : Value),
    hasType F v1 ty = true → hasType F v2 ty = true →
    utf8Free F ty = true → noTypeFree F ty = true →
    ∃ r, wasm_equal F ty ty v1 v2 = .ok r ∧ (r = true ↔ v1 = v2) := by
  intro F
  induction F with
  | zero => intro ty v1 v2 h1; exact Bool.noConfusion h1
  | succ F ihF =>
    intro ty v1 v2 h1 h2 hu8 hnt
    cases ty <;> cases v1 <;> cases v2 <;>
      first
        | exact Bool.noConfusion h1
        | exact Bool.noConfusion h2
        | exact Bool.noConfusion hu8
        | skip
    case intT.intV.intV i1 i2 =>
      exact ⟨i1 == i2, rfl, by simp⟩
    case uintT.uintV.uintV u1 u2 =>
      exact ⟨u1 == u2, rfl, by simp⟩
    case boolT.boolV.boolV b1 b2 =>
      exact ⟨b1 == b2, rfl, by simp⟩
    case buffT.buffV.buffV c d1 d2 =>
      refine ⟨d1 == d2, ?_, by simp⟩
      rw [show wasm_equal (F + 1) (.buffT c) (.buffT c) (.buffV d1) (.buffV d2) =
          (if (c == c) = true then Except.ok (d1 == d2) else Except.ok false)
          from rfl, if_pos (beq_self_eq_true c)]
    case asciiT.asciiV.asciiV c d1 d2 =>
      refine ⟨d1 == d2, ?_, by simp⟩
      rw [show wasm_equal (F + 1) (.asciiT c) (.asciiT c) (.asciiV d1) (.asciiV d2) =
          (if (c == c) = true then Except.ok (d1 == d2) else Except.ok false)
          from rfl, if_pos (beq_self_eq_true c)]
    case principalT.principalV.principalV ver1 hash1 name1 ver2 hash2 name2 =>
      simp only [hasType, Bool.and_eq_true, beq_iff_eq, decide_eq_true_eq,
        Bool.or_eq_true, List.all_eq_true] at h1 h2
      obtain ⟨⟨⟨hv1, h20a⟩, _⟩, _⟩ := h1
      obtain ⟨⟨⟨hv2, h20b⟩, _⟩, _⟩ := h2
      refine ⟨_, rfl, ?_⟩
      constructor
      · intro himg
        have himg2 : [ver1] ++ hash1 ++
            (if name1.isEmpty then [0] else name1.length % 256 :: name1) =
            [ver2] ++ hash2 ++
            (if name2.isEmpty then [0] else name2.length % 256 :: name2) := by
          exact eq_of_beq himg
        simp only [List.cons_append, List.nil_append, List.append_assoc] at himg2
        injection himg2 with hv hrest
        obtain ⟨hh, ht⟩ := List.append_inj hrest (h20a.trans h20b.symm)
        subst hv; subst hh
        cases name1 with
        | nil =>
          cases name2 with
          | nil => rfl
          | cons b bs =>
            simp only [List.isEmpty_nil, List.isEmpty_cons, if_true,
              Bool.false_eq_true, if_false] at ht
            injection ht with hz ht2
            exact absurd ht2.symm (List.cons_ne_nil b bs)
        | cons a as1 =>
          cases name2 with
          | nil =>
            simp only [List.isEmpty_nil, List.isEmpty_cons, if_true,
              Bool.false_eq_true, if_false] at ht
            injection ht with hz ht2
            exact absurd ht2 (List.cons_ne_nil a as1)
          | cons b bs =>
            simp only [List.isEmpty_cons, Bool.false_eq_true, if_false] at ht
            injection ht with hl2 hname
            rw [hname]
      · intro hc
        injection hc with e1 e2 e3
        subst e1; subst e2; subst e3
        exact beq_self_eq_true _
    case listT.listV.listV elemTy cap ety1 vs1 ety2 vs2 =>
      simp only [hasType, Bool.and_eq_true, decide_eq_true_eq,
        List.all_eq_true] at h1 h2
      obtain ⟨⟨⟨htEq1, hcap1⟩, hsz1⟩, hall1⟩ := h1
      obtain ⟨⟨⟨htEq2, hcap2⟩, hsz2⟩, hall2⟩ := h2
      have he1 : ety1 = elemTy := tyEqB_eq (F + 1) ety1 elemTy htEq1
      have he2 : ety2 = elemTy := tyEqB_eq (F + 1) ety2 elemTy htEq2
      have hu8e : utf8Free F elemTy = true := hu8
      have hnte : noTypeFree F elemTy = true := hnt
      by_cases hl : vs1.length = vs2.length
      · obtain ⟨r, hr, hiff⟩ := eqElems_spec F elemTy
          (fun a b ha hb => ihF elemTy a b ha hb hu8e hnte) vs1 vs2 hl hall1 hall2
        refine ⟨r, ?_, ?_⟩
        · show (if vs1.length = vs2.length then
              eqElems (fun a b => wasm_equal F elemTy elemTy a b) vs1 vs2
            else Except.ok false) = Except.ok r
          rw [if_pos hl]
          exact hr
        · rw [hiff, he1, he2]
          simp
      · refine ⟨false, ?_, ?_⟩
        · show (if vs1.length = vs2.length then
              eqElems (fun a b => wasm_equal F elemTy elemTy a b) vs1 vs2
            else Except.ok false) = Except.ok false
          rw [if_neg hl]
        · refine iff_of_false (by simp) ?_
          intro hc
          injection hc with h_e h_vs
          exact hl (congrArg List.length h_vs)
    case tupleT.tupV.tupV fields fs1 fs2 =>
      simp only [hasType, Bool.and_eq_true, beq_iff_eq, Bool.not_eq_true',
        List.all_eq_true] at h1 h2
      obtain ⟨⟨⟨hlen1, hne1⟩, hdk1⟩, hz1⟩ := h1
      obtain ⟨⟨⟨hlen2, hne2⟩, hdk2⟩, hz2⟩ := h2
      have hft : ∀ p ∈ fields, utf8Free F p.2 = true ∧ noTypeFree F p.2 = true := by
        have ha := hu8
        have hb := hnt
        simp only [utf8Free, List.all_eq_true] at ha
        simp only [noTypeFree, List.all_eq_true] at hb
        exact fun p hp => ⟨ha p hp, hb p hp⟩
      obtain ⟨r, hr, hiff⟩ := eqFields_spec F
        (fun ty v1 v2 ha hb hu hn => ihF ty v1 v2 ha hb hu hn)
        fields fs1 fs2 hft hlen1 hlen2 hz1 hz2
      refine ⟨r, ?_, ?_⟩
      · show eqFields (fun t s a b => wasm_equal F t s a b) fields fields fs1 fs2 =
          Except.ok r
        exact hr
      · rw [hiff]
        simp
    case optionalT.noneV.noneV inner =>
      have hu8i : utf8Free F inner = true := hu8
      have hnti : noTypeFree F inner = true := hnt
      have hne : inner ≠ .noneTy := by
        intro he
        subst he
        exact Bool.noConfusion ((noTypeFree_noneTy F).symm.trans hnti)
      obtain ⟨q, hq, hqe⟩ := placeholder_eq_ok F inner hu8i hnti
      refine ⟨true, ?_, by simp⟩
      rw [opt_none_arm F inner hne, hq]
      show (wasm_equal F inner inner q q >>= fun r =>
        (Except.ok (true || r) : Except EqErr Bool)) = Except.ok true
      rw [hqe]
      rfl
    case optionalT.noneV.someV inner b =>
      exact ⟨false, rfl, iff_of_false (by simp) (fun hc => Value.noConfusion hc)⟩
    case optionalT.someV.noneV inner a =>
      exact ⟨false, rfl, iff_of_false (by simp) (fun hc => Value.noConfusion hc)⟩
    case optionalT.someV.someV inner a b =>
      have hu8i : utf8Free F inner = true := hu8
      have hnti : noTypeFree F inner = true := hnt
      have hne : inner ≠ .noneTy := by
        intro he
        subst he
        exact Bool.noConfusion ((noTypeFree_noneTy F).symm.trans hnti)
      have h1i : hasType F a inner = true := h1
      have h2i : hasType F b inner = true := h2
      obtain ⟨r, hr, hiff⟩ := ihF inner a b h1i h2i hu8i hnti
      refine ⟨r, ?_, ?_⟩
      · rw [opt_some_arm F inner hne a b, hr]
        rfl
      · rw [hiff]
        simp
    case responseT.okV.okV okTy errTy a b =>
      have h1s : hasType F a okTy = true := by
        have h := h1
        simp only [hasType, Bool.and_eq_true] at h
        exact h.1
      have h2s : hasType F b okTy = true := by
        have h := h2
        simp only [hasType, Bool.and_eq_true] at h
        exact h.1
      have hu8s : utf8Free F okTy = true := by
        have h := hu8
        simp only [utf8Free, Bool.and_eq_true] at h
        exact h.1
      have hnts : noTypeFree F okTy = true := by
        have h := hnt
        simp only [noTypeFree, Bool.and_eq_true] at h
        exact h.1
      obtain ⟨r, hr, hiff⟩ := ihF okTy a b h1s h2s hu8s hnts
      refine ⟨r, ?_, ?_⟩
      · show wasm_equal F okTy okTy a b = Except.ok r
        exact hr
      · rw [hiff]
        simp
    case responseT.okV.errV okTy errTy a b =>
      exact ⟨false, rfl, iff_of_false (by simp) (fun hc => Value.noConfusion hc)⟩
    case responseT.errV.okV okTy errTy a b =>
      exact ⟨false, rfl, iff_of_false (by simp) (fun hc => Value.noConfusion hc)⟩
    case responseT.errV.errV okTy errTy a b =>
      have h1s : hasType F a errTy = true := by
        have h := h1
        simp only [hasType, Bool.and_eq_true] at h
        exact h.2
      have h2s : hasType F b errTy = true := by
        have h := h2
        simp only [hasType, Bool.and_eq_true] at h
        exact h.2
      have hu8s : utf8Free F errTy = true := by
        have h := hu8
        simp only [utf8Free, Bool.and_eq_true] at h
        exact h.2
      have hnts : noTypeFree F errTy = true := by
        have h := hnt
        simp only [noTypeFree, Bool.and_eq_true] at h
        exact h.2
      obtain ⟨r, hr, hiff⟩ := ihF errTy a b h1s h2s hu8s hnts
      refine ⟨r, ?_, ?_⟩
      · show wasm_equal F errTy errTy a b = Except.ok r
        exact hr
      · rw [hiff]
        simp

/-- **C1** (amended: UTF-8 strings excluded). For every well-typed concrete
Clarity value `v` of a UTF-8-free type `ty`, writing `v` with `write_to_wasm`
(representation at `off`, in-memory data at `imoff`, with the two regions
disjoint and in the 32-bit address space) and reading back with
`read_from_wasm_indirect` from the same offset yields exactly `v`: on this
domain the two marshalling operations are exact inverses. -/
theorem C1_roundtrip (F : Nat) (ty : Ty) (v : Value) (m : Mem) (off imoff : Nat)
    (m' : Mem) (w imw : Nat)
    (hty : hasType F v ty = true) (hu8 : utf8Free F ty = true)
    (hw : write_to_wasm F m ty off imoff v true = .ok (m', w, imw))
    (hdisj : off + w ≤ imoff) (hbound : imoff + imw < 2 ^ 31) :
    read_from_wasm_indirect F m' ty off = .ok v :=
  (write_read_roundtrip F ty v m off imoff m' w imw hty hu8 hw).2.2.2 hdisj hbound m'
    (fun _ _ _ => rfl) (fun _ _ _ => rfl)

theorem C1_roundtrip_witness :
    read_from_wasm_indirect 2 (storeBytes mem0 0 (leBytes 4 1)) .boolT 0 =
      .ok (.boolV true) :=
  C1_roundtrip 2 .boolT (.boolV true) mem0 0 100 (storeBytes mem0 0 (leBytes 4 1))
    4 0 rfl rfl rfl (by decide) (by decide)

/-- **C1** (counterexample to the claim as stated): the UTF-8 string type is
concrete and not NoType, and `(.utf8V [104])` (the one-character string "h")
is a well-typed value of it, yet `write_to_wasm` hits the
`TypeSignature::SequenceType(_) => todo!(...)` catch-all (wasm_utils.rs:225)
and panics instead of writing, so the marshalling pair is not a pair of
inverses on every concrete non-NoType type. -/
theorem C1_counterexample :
    hasType 3 (.utf8V [104]) (.utf8T 5) = true ∧
    write_to_wasm 3 mem0 (.utf8T 5) 0 100 (.utf8V [104]) true =
      .error .panicTodo :=
  ⟨by decide, rfl⟩

/-- **C2** (amended: UTF-8 strings excluded). On well-typed values of a
common UTF-8-free, NoType-free type, the compiled `is-eq` comparison decides
structural equality of the source values; in particular it is reflexive and
symmetric. -/
theorem C2_is_eq_structural (F : Nat) (ty : Ty) (v1 v2 : Value)
    (h1 : hasType F v1 ty = true) (h2 : hasType F v2 ty = true)
    (hu8 : utf8Free F ty = true) (hnt : noTypeFree F ty = true) :
    ∃ r, wasm_equal F ty ty v1 v2 = .ok r ∧ (r = true ↔ v1 = v2) ∧
      wasm_equal F ty ty v1 v1 = .ok true ∧
      wasm_equal F ty ty v2 v1 = .ok r := by
  obtain ⟨r, hr, hiff⟩ := wasm_equal_spec F ty v1 v2 h1 h2 hu8 hnt
  obtain ⟨r1, hr1, hiff1⟩ := wasm_equal_spec F ty v1 v1 h1 h1 hu8 hnt
  obtain ⟨r2, hr2, hiff2⟩ := wasm_equal_spec F ty v2 v1 h2 h1 hu8 hnt
  have hr1t : r1 = true := hiff1.mpr rfl
  have hrr : r2 = r := by
    rw [Bool.eq_iff_iff, hiff2, hiff]
    exact eq_comm
  exact ⟨r, hr, hiff, hr1t ▸ hr1, hrr ▸ hr2⟩

theorem C2_is_eq_structural_witness :
    ∃ r, wasm_equal 2 .intT .intT (.intV 1) (.intV 2) = .ok r ∧
      (r = true ↔ Value.intV 1 = Value.intV 2) ∧
      wasm_equal 2 .intT .intT (.intV 1) (.intV 1) = .ok true ∧
      wasm_equal 2 .intT .intT (.intV 2) (.intV 1) = .ok r :=
  C2_is_eq_structural 2 .intT (.intV 1) (.intV 2) (by decide) (by decide) rfl rfl

/-- **C2** (counterexample to the claim as stated): UTF-8 strings are a
source type with a common type for both operands, yet the `is-eq` code
generator has no match arm for them and fails with
`GeneratorError::NotImplemented` (equal.rs:243), so no boolean at all is
produced for such operands. -/
theorem C2_counterexample :
    hasType 2 (.utf8V [104]) (.utf8T 5) = true ∧
    wasm_equal 2 (.utf8T 5) (.utf8T 5) (.utf8V [104]) (.utf8V [104]) =
      .error .notImplementedGen :=
  ⟨by decide, rfl⟩

end Clar2Wasm
